import Mathlib

/-!
Verification of the entity-component store and query engine of the `two`
game engine (files `src/entity.h`, `src/entity.cpp`, `src/debug.h`).

The C++ code is shallowly embedded: each C++ class becomes a Lean
structure, each member function a Lean function on that structure.
Machine integers (`uint16_t` entity ids, `size_t` counters) are modelled
as `Nat`; all quantities involved stay below `TWO_ENTITY_MAX = 4096`,
far below the 2^16 wrap-around, so no modular arithmetic is needed.
`std::unordered_map` becomes a function into `Option`, `std::bitset`
becomes `Finset Nat`, `std::vector` becomes `List` (push_back appends at
the right end, pop_back drops the last element).  Fatal assertions
(`ASSERTS`, which abort the process) become `Option`-valued results with
`none` for the aborted run.
-/

namespace Two

/-- TWO_ENTITY_MAX from entity.h: maximum number of simultaneously live
entities (default configuration). -/
def TWO_ENTITY_MAX : Nat := 4096

/-- NullEntity from entity.h: the reserved sentinel entity id 0. -/
def NullEntity : Nat := 0

/-- ComponentArray<T> from entity.h: the dense packed store for one
component type.  `packed_array` mirrors the `std::vector<T>` (entries at
index ≥ `packed_count` are stale), the two maps mirror the
`std::unordered_map`s, `packed_count` the number of valid entries. -/
structure ComponentArray (T : Type) where
  packed_array : List T := []
  entity_to_packed : Nat → Option Nat := fun _ => none
  packed_to_entity : Nat → Option Nat := fun _ => none
  packed_count : Nat := 0

namespace ComponentArray

variable {T : Type}

/-- ComponentArray<T>::contains from entity.h. -/
def contains (s : ComponentArray T) (e : Nat) : Bool :=
  (s.entity_to_packed e).isSome

/-- ComponentArray<T>::read from entity.h.  The C++ version asserts the
entity holds the component (debug builds) and indexes the packed array;
the absent case is modelled by `default`. -/
def read [Inhabited T] (s : ComponentArray T) (e : Nat) : T :=
  match s.entity_to_packed e with
  | some p => s.packed_array.getD p default
  | none => default

/-- ComponentArray<T>::write from entity.h: replace in place when the
entity already holds a component, otherwise append to the packed array
(reusing a stale slot when the vector is long enough, exactly as the
C++ does) and record both map entries. -/
def write (s : ComponentArray T) (e : Nat) (c : T) : ComponentArray T :=
  match s.entity_to_packed e with
  | some pos => { s with packed_array := s.packed_array.set pos c }
  | none =>
    let pos := s.packed_count
    { packed_array :=
        if pos < s.packed_array.length then s.packed_array.set pos c
        else s.packed_array ++ [c]
      entity_to_packed := fun x => if x = e then some pos else s.entity_to_packed x
      packed_to_entity := fun p => if p = pos then some e else s.packed_to_entity p
      packed_count := pos + 1 }

/-- ComponentArray<T>::remove from entity.h: no-op when the entity holds
no component; otherwise move the last packed element into the removed
slot, redirect the moved entity's mappings, erase the removed entity's
mapping and the stale last slot, and decrement the count.  `moved` uses
`getD 0` mirroring `unordered_map::operator[]` value-initialisation. -/
def remove [Inhabited T] (s : ComponentArray T) (e : Nat) : ComponentArray T :=
  match s.entity_to_packed e with
  | none => s
  | some removed =>
    let last := s.packed_count - 1
    let moved := (s.packed_to_entity last).getD 0
    { packed_array := s.packed_array.set removed (s.packed_array.getD last default)
      entity_to_packed := fun x =>
        if x = e then none
        else if x = moved then some removed else s.entity_to_packed x
      packed_to_entity := fun p =>
        if p = last then none
        else if p = removed then some moved else s.packed_to_entity p
      packed_count := s.packed_count - 1 }

/-- ComponentArray<T>::copy from entity.h. -/
def copy [Inhabited T] (s : ComponentArray T) (dst src : Nat) : ComponentArray T :=
  s.write dst (s.read src)

end ComponentArray

/-- An operation on a single component store: the two mutators of
ComponentArray<T>. -/
inductive CAOp (T : Type) where
  | write (e : Nat) (v : T)
  | remove (e : Nat)

/-- Run a sequence of store operations from the freshly constructed
(empty) ComponentArray. -/
def caRun [Inhabited T] (ops : List (CAOp T)) : ComponentArray T :=
  ops.foldl
    (fun s op =>
      match op with
      | .write e v => s.write e v
      | .remove e => s.remove e)
    {}

/-- Well-formedness of a component store, as maintained by the C++ code:
the two maps are mutually inverse bijections between the entities
holding a component and the slot range `[0, packed_count)`, and the
packed vector is at least `packed_count` long. -/
structure StoreInv (s : ComponentArray T) : Prop where
  left : ∀ e p, s.entity_to_packed e = some p →
    p < s.packed_count ∧ s.packed_to_entity p = some e
  right : ∀ p e, s.packed_to_entity p = some e →
    p < s.packed_count ∧ s.entity_to_packed e = some p
  full : ∀ p, p < s.packed_count → (s.packed_to_entity p).isSome
  len : s.packed_count ≤ s.packed_array.length

/-! ## The World

Component types are identified with the small dense ids that
`find_or_register_component` assigns them in the C++ code; which id a
given C++ type receives is irrelevant to behaviour, so the model takes
the ids themselves as the types, with the `Active` marker given the
fixed id 0.  Component values are type-erased to `Nat`.  An
`EntityMask` (`std::bitset<TWO_COMPONENT_MAX>`) becomes the finite set
of type ids whose bit is set; the C++ superset test
`(mask & key) == key` becomes `key ⊆ mask`.  The `view_cache`
`unordered_map` becomes an association list in insertion order (caches
are never erased, and every per-cache update is independent of the
iteration order the unordered_map would use). -/

abbrev EntityMask := Finset Nat

/-- The component-type id the model assigns to the Active marker
component from entity.h. -/
def ActiveId : Nat := 0

/-- EntityCache::Diff::Operation from entity.h. -/
inductive DiffOp where
  | Add
  | Remove
deriving DecidableEq

/-- EntityCache::Diff from entity.h. -/
structure Diff where
  entity : Nat
  op : DiffOp
deriving DecidableEq

/-- World::EntityCache from entity.h: the materialized entity list for
one mask, its pending diff queue and the mirror lookup set. -/
structure EntityCache where
  entities : List Nat := []
  diffs : List Diff := []
  lookup : Finset Nat := ∅
deriving DecidableEq

/-- World::DestroyedEntity from entity.h: a pending-destruction record;
caches are identified by their key masks (the C++ stores pointers, and
view_cache never erases entries, so the key identifies the cache). -/
structure DestroyedEntity where
  entity : Nat
  caches : List EntityMask
deriving DecidableEq

/-- The World state from entity.h (the fields the entity registry,
component stores and query caches use; systems are modelled
separately). -/
structure World where
  alive_count : Nat := 0
  unused_entities : List Nat := []
  destroyed_entities : List DestroyedEntity := []
  entities : List Nat := []
  view_cache : List (EntityMask × EntityCache) := []
  components : Nat → ComponentArray Nat := fun _ => {}
  entity_masks : Nat → EntityMask := fun _ => ∅

/-- A freshly constructed World. -/
def World.init : World := {}

/-- World::invalidate_cache from entity.cpp: scan the pending queue for
an identical (entity, operation) pair, skip the append if found. -/
def invalidate_cache (c : EntityCache) (d : Diff) : EntityCache :=
  if d ∈ c.diffs then c else { c with diffs := c.diffs ++ [d] }

/-- Lookup of `view_cache.find(mask)`. -/
def findCache (vc : List (EntityMask × EntityCache)) (m : EntityMask) :
    Option EntityCache :=
  (vc.find? (fun p => decide (p.1 = m))).map (fun p => p.2)

/-- Replace the cache stored under an existing mask key. -/
def replaceCache (vc : List (EntityMask × EntityCache)) (m : EntityMask)
    (c : EntityCache) : List (EntityMask × EntityCache) :=
  vc.map (fun p => if p.1 = m then (m, c) else p)

/-- The swap-with-last removal used on entity vectors (std::find,
std::swap with back(), pop_back()) in World::destroy_entity and
World::apply_diffs_to_cache. -/
def removeSwap (l : List Nat) (e : Nat) : List Nat :=
  (l.set (l.indexOf e) (l.getLastD 0)).dropLast

/-- World::pack from entity.h: set the mask bit, write the component
value into the store; when the bit was already set the caches are left
completely untouched, otherwise raise a deduplicated Add diff on every
cache whose key is a subset of the new mask and whose lookup set does
not already contain the entity. -/
def World.pack (w : World) (e t v : Nat) : World :=
  let current := w.entity_masks e
  let mask := insert t current
  let masks := fun x => if x = e then mask else w.entity_masks x
  let comps := fun u => if u = t then (w.components t).write e v else w.components u
  if t ∈ current then
    { w with entity_masks := masks, components := comps }
  else
    { w with
      entity_masks := masks
      components := comps
      view_cache := w.view_cache.map (fun p =>
        if p.1 ⊆ mask ∧ e ∉ p.2.lookup then
          (p.1, invalidate_cache p.2 { entity := e, op := .Add })
        else p) }

/-- World::remove_component from entity.h: remove from the store, raise
a deduplicated Remove diff on every cache whose key contains the type
and whose lookup set contains the entity, then clear the mask bit. -/
def World.remove_component (w : World) (e t : Nat) : World :=
  let comps := fun u => if u = t then (w.components t).remove e else w.components u
  let vc := w.view_cache.map (fun p =>
    if t ∈ p.1 ∧ e ∈ p.2.lookup then
      (p.1, invalidate_cache p.2 { entity := e, op := .Remove })
    else p)
  let masks := fun x => if x = e then (w.entity_masks e).erase t else w.entity_masks x
  { w with components := comps, view_cache := vc, entity_masks := masks }

/-- World::make_inactive_entity from entity.cpp: recycle the back of the
free pool when non-empty; otherwise use alive_count as the fresh id
(creating the reserved NullEntity 0 first when alive_count is 0), with
the fatal `Too many entities` assertion modelled as `none`. -/
def World.make_inactive_entity (w : World) : Option (Nat × World) :=
  match w.unused_entities.getLast? with
  | some e =>
    some (e, { w with
      unused_entities := w.unused_entities.dropLast
      entities := w.entities ++ [e]
      alive_count := w.alive_count + 1 })
  | none =>
    if w.alive_count < TWO_ENTITY_MAX then
      if w.alive_count = NullEntity then
        some (1, { w with
          entities := (w.entities ++ [NullEntity]) ++ [1]
          alive_count := 2 })
      else
        some (w.alive_count, { w with
          entities := w.entities ++ [w.alive_count]
          alive_count := w.alive_count + 1 })
    else none

/-- World::make_entity from entity.cpp: make_inactive_entity followed by
pack(entity, Active). -/
def World.make_entity (w : World) : Option (Nat × World) :=
  w.make_inactive_entity.map (fun r => (r.1, r.2.pack r.1 ActiveId 0))

/-- World::copy_entity from entity.cpp: copy every component the source
holds, or the destination mask bits, then raise deduplicated Add diffs
exactly as pack does. -/
def World.copy_entity (w : World) (dst src : Nat) : World :=
  let src_mask := w.entity_masks src
  let dst_mask := w.entity_masks dst ∪ src_mask
  let comps := fun t =>
    if t ∈ src_mask then (w.components t).copy dst src else w.components t
  let masks := fun x => if x = dst then dst_mask else w.entity_masks x
  { w with
    components := comps
    entity_masks := masks
    view_cache := w.view_cache.map (fun p =>
      if p.1 ⊆ dst_mask ∧ dst ∉ p.2.lookup then
        (p.1, invalidate_cache p.2 { entity := dst, op := .Add })
      else p) }

/-- World::destroy_entity from entity.cpp: remove the entity from every
store, zero its mask, append a Remove diff (directly, without the
dedup scan of invalidate_cache) to every cache whose lookup set
contains the entity, record those caches in a pending-destruction
record, and swap-remove the entity from the live list. -/
def World.destroy_entity (w : World) (e : Nat) : World :=
  let comps := fun u => (w.components u).remove e
  let masks := fun x => if x = e then ∅ else w.entity_masks x
  let vc := w.view_cache.map (fun p =>
    if e ∈ p.2.lookup then
      (p.1, { p.2 with diffs := p.2.diffs ++ [{ entity := e, op := .Remove }] })
    else p)
  let caches := (w.view_cache.filter (fun p => decide (e ∈ p.2.lookup))).map (fun p => p.1)
  { w with
    components := comps
    entity_masks := masks
    view_cache := vc
    entities := removeSwap w.entities e
    destroyed_entities := w.destroyed_entities ++ [{ entity := e, caches := caches }] }

/-- The loop body of World::apply_diffs_to_cache from entity.cpp: fold
the queued diffs into the entity list and lookup set, in order.  The
`rem != vec.end()` assertion (a Remove diff for an entity absent from
the list aborts) is modelled as `none`. -/
def applyDiffList : List Nat → Finset Nat → List Diff → Option (List Nat × Finset Nat)
  | es, lk, [] => some (es, lk)
  | es, lk, d :: ds =>
    match d.op with
    | .Add => applyDiffList (es ++ [d.entity]) (insert d.entity lk) ds
    | .Remove =>
      if d.entity ∈ es then
        applyDiffList (removeSwap es d.entity) (lk.erase d.entity) ds
      else none

/-- World::apply_diffs_to_cache from entity.cpp. -/
def apply_diffs_to_cache (c : EntityCache) : Option EntityCache :=
  (applyDiffList c.entities c.lookup c.diffs).map
    (fun r => { entities := r.1, diffs := [], lookup := r.2 })

/-- World::view from entity.h: compute the key mask (adding the Active
bit unless include_inactive), serve the cached list after lazily
applying pending diffs, or build the cache by a linear scan of the live
entities on the first request for this mask. -/
def World.view (w : World) (ts : Finset Nat) (include_inactive : Bool) :
    Option (List Nat × World) :=
  let mask := if include_inactive then ts else insert ActiveId ts
  match findCache w.view_cache mask with
  | some c =>
    if c.diffs = [] then some (c.entities, w)
    else (apply_diffs_to_cache c).map (fun c2 =>
      (c2.entities, { w with view_cache := replaceCache w.view_cache mask c2 }))
  | none =>
    let es := w.entities.filter (fun e => decide (mask ⊆ w.entity_masks e))
    some (es, { w with view_cache :=
      w.view_cache ++ [(mask, { entities := es, diffs := [], lookup := es.toFinset })] })

/-- Apply pending diffs to the caches listed in one pending-destruction
record (the inner loop of World::collect_unused_entities); a missing
key cannot occur (caches are never erased) and is mapped to `none`. -/
def applyCachesAt (vc : List (EntityMask × EntityCache)) :
    List EntityMask → Option (List (EntityMask × EntityCache))
  | [] => some vc
  | m :: ms =>
    match findCache vc m with
    | none => none
    | some c =>
      match apply_diffs_to_cache c with
      | none => none
      | some c2 => applyCachesAt (replaceCache vc m c2) ms

/-- The record loop of World::collect_unused_entities from entity.cpp:
flush the caches listed in each record, then return the id to the free
pool. -/
def collectLoop (vc : List (EntityMask × EntityCache)) (pool : List Nat) :
    List DestroyedEntity → Option (List (EntityMask × EntityCache) × List Nat)
  | [] => some (vc, pool)
  | d :: ds =>
    match applyCachesAt vc d.caches with
    | none => none
    | some vc2 => collectLoop vc2 (pool ++ [d.entity]) ds

/-- World::collect_unused_entities from entity.cpp. -/
def World.collect_unused_entities (w : World) : Option World :=
  (collectLoop w.view_cache w.unused_entities w.destroyed_entities).map
    (fun r => { w with
      view_cache := r.1
      unused_entities := r.2
      destroyed_entities := [] })

/-! ## Client traces

A `Step` is one public World operation invoked the way the API is meant
to be used: component operations target live entities (their handles
come from make_entity / views), destroy_entity honours its assertions
(non-null, live — claim C10's stated assumption), and operations whose
fatal assertions fire have no successor state. -/

/-- One public World operation performed on a World. -/
inductive Step : World → World → Prop where
  | make_inactive (w : World) (e : Nat) (w2 : World) :
      w.make_inactive_entity = some (e, w2) → Step w w2
  | make (w : World) (e : Nat) (w2 : World) :
      w.make_entity = some (e, w2) → Step w w2
  | pack (w : World) (e t v : Nat) : e ∈ w.entities → Step w (w.pack e t v)
  | remove_component (w : World) (e t : Nat) :
      e ∈ w.entities → Step w (w.remove_component e t)
  | copy (w : World) (dst src : Nat) :
      dst ∈ w.entities → src ∈ w.entities → Step w (w.copy_entity dst src)
  | destroy (w : World) (e : Nat) :
      e ≠ NullEntity → e ∈ w.entities → Step w (w.destroy_entity e)
  | view (w : World) (ts : Finset Nat) (ia : Bool) (res : List Nat) (w2 : World) :
      w.view ts ia = some (res, w2) → Step w w2
  | collect (w w2 : World) : w.collect_unused_entities = some w2 → Step w w2

/-- States reachable from a freshly constructed World by public
operations. -/
def Reachable (w : World) : Prop := Relation.ReflTransGen Step World.init w

/-- A syntactic World operation, used to run concrete traces. -/
inductive WOp where
  | make
  | make_inactive
  | pack (e t v : Nat)
  | remove_component (e t : Nat)
  | copy (dst src : Nat)
  | destroy (e : Nat)
  | view (ts : Finset Nat) (ia : Bool)
  | collect

/-- Run one operation, `none` when its guard fails or it aborts. -/
def runOp (w : World) : WOp → Option World
  | .make => w.make_entity.map (fun r => r.2)
  | .make_inactive => w.make_inactive_entity.map (fun r => r.2)
  | .pack e t v => if e ∈ w.entities then some (w.pack e t v) else none
  | .remove_component e t =>
    if e ∈ w.entities then some (w.remove_component e t) else none
  | .copy dst src =>
    if dst ∈ w.entities ∧ src ∈ w.entities then some (w.copy_entity dst src) else none
  | .destroy e =>
    if e ≠ NullEntity ∧ e ∈ w.entities then some (w.destroy_entity e) else none
  | .view ts ia => (w.view ts ia).map (fun r => r.2)
  | .collect => w.collect_unused_entities

/-- Run a list of operations. -/
def runOps (w : World) : List WOp → Option World
  | [] => some w
  | op :: ops =>
    match runOp w op with
    | none => none
    | some w2 => runOps w2 ops

/-- The state after a trace from the initial World (initial World when
the trace is rejected). -/
def wAfter (ops : List WOp) : World := (runOps World.init ops).getD World.init

/-- The list a view returns, without the updated World. -/
def viewList (w : World) (ts : Finset Nat) (ia : Bool) : Option (List Nat) :=
  (w.view ts ia).map (fun r => r.1)

/-- The pending diff queue of the cache stored for a mask. -/
def cacheDiffs (w : World) (m : EntityMask) : Option (List Diff) :=
  (findCache w.view_cache m).map (fun c => c.diffs)

/-- The materialized entity list of the cache stored for a mask. -/
def cacheEntities (w : World) (m : EntityMask) : Option (List Nat) :=
  (findCache w.view_cache m).map (fun c => c.entities)

/-- A trace on which view caching drifts: create entity 1 (active),
build the cache for {Active, 1}, then pack component 1 onto entity 1
and remove it again before the cache is next viewed. -/
def C1trace : List WOp :=
  [.make, .view {1} false, .pack 1 1 7, .remove_component 1 1]

/-- A trace on which a destroyed entity survives in a view it matched:
entity 1 matches and is returned by the view for {Active, 1}; the
component is then removed and the view applied (entity 1 leaves the
cache), the component is packed again (pending Add diff), and the
entity is destroyed before the cache is next viewed. -/
def C2trace : List WOp :=
  [.make, .pack 1 1 7, .view {1} false, .remove_component 1 1,
   .view {1} false, .pack 1 1 7, .destroy 1]

/-- A trace producing duplicate diffs: entity 1 is in the cache for
{Active}; remove_component(1, Active) queues a Remove diff through the
dedup scan, then destroy_entity(1) appends a second identical Remove
diff directly. -/
def C5trace : List WOp :=
  [.make, .view ∅ false, .remove_component 1 0, .destroy 1]

/-- The Add→Remove→Add toggle of claim C6, starting from an entity not
yet in the cache for {Active, 1}. -/
def C6trace : List WOp :=
  [.make, .view {1} false, .pack 1 1 7, .remove_component 1 1, .pack 1 1 7]

/-- The pack→remove→pack toggle of claim C6 applied to an entity that
is materialized in the cache for {Active, 1}. -/
def C6traceB : List WOp :=
  [.make, .pack 1 1 7, .view {1} false, .pack 1 1 8, .remove_component 1 1,
   .pack 1 1 9]

/-- A trace packing a component onto the NullEntity: nothing in
World::pack guards against entity 0. -/
def C9trace : List WOp := [.make, .pack 0 5 42]

/-- The entity ids referenced by pending-destruction records. -/
def recIds (w : World) : List Nat := w.destroyed_entities.map (fun d => d.entity)

/-- The registry invariant maintained by the World across public
operations: the live list, the free pool and the pending-destruction
records are duplicate-free and pairwise disjoint, every id they hold is
below alive_count (so a fresh id collides with nothing), NullEntity
lives in the live list from the first creation on and never enters the
pool or the records. -/
structure RegInv (w : World) : Prop where
  nodupE : w.entities.Nodup
  nodupU : w.unused_entities.Nodup
  nodupD : (recIds w).Nodup
  djEU : ∀ e, e ∈ w.entities → e ∉ w.unused_entities
  djED : ∀ e, e ∈ w.entities → e ∉ recIds w
  djUD : ∀ e, e ∈ w.unused_entities → e ∉ recIds w
  boundE : ∀ e, e ∈ w.entities → e < w.alive_count
  boundU : ∀ e, e ∈ w.unused_entities → e < w.alive_count
  boundD : ∀ e, e ∈ recIds w → e < w.alive_count
  zeroE : 0 < w.alive_count → NullEntity ∈ w.entities
  zeroU : NullEntity ∉ w.unused_entities
  zeroD : NullEntity ∉ recIds w

/-- A trace exercising destruction, collection and id recycling. -/
def C10trace : List WOp := [.make, .make, .destroy 2, .collect, .make_inactive]

/-- n + 1 successive make_inactive_entity calls on a fresh World (the
first also creates NullEntity). -/
def mkN : Nat → World
  | 0 => wAfter [WOp.make_inactive]
  | n + 1 => (runOp (mkN n) WOp.make_inactive).getD (mkN n)

/-! ## Diff deduplication (claims C5 and C6) -/

/-- Every cache's pending diff queue is free of duplicate entries. -/
abbrev DedupedDiffs (w : World) : Prop :=
  ∀ p, p ∈ w.view_cache → p.2.diffs.Nodup

/-- A World with one (empty) cache and entity 1. -/
def C5w : World := wAfter [.make, .view ∅ false]

/-- A World with entity 1 (active) and an empty cache for {Active, 1}. -/
def C6w : World := wAfter [.make, .view {1} false]

/-! ## The NullEntity (claim C9)

The code never guards pack or copy_entity against entity 0, so the
reserved-sentinel property only holds for clients that never target
entity 0 with a component write; `NStep` is `Step` with exactly that
restriction added. -/

/-- A public operation that never packs or copies onto the NullEntity. -/
inductive NStep : World → World → Prop where
  | make_inactive (w : World) (e : Nat) (w2 : World) :
      w.make_inactive_entity = some (e, w2) → NStep w w2
  | make (w : World) (e : Nat) (w2 : World) :
      w.make_entity = some (e, w2) → NStep w w2
  | pack (w : World) (e t v : Nat) :
      e ∈ w.entities → e ≠ NullEntity → NStep w (w.pack e t v)
  | remove_component (w : World) (e t : Nat) :
      e ∈ w.entities → NStep w (w.remove_component e t)
  | copy (w : World) (dst src : Nat) :
      dst ∈ w.entities → src ∈ w.entities → dst ≠ NullEntity →
      NStep w (w.copy_entity dst src)
  | destroy (w : World) (e : Nat) :
      e ≠ NullEntity → e ∈ w.entities → NStep w (w.destroy_entity e)
  | view (w : World) (ts : Finset Nat) (ia : Bool) (res : List Nat) (w2 : World) :
      w.view ts ia = some (res, w2) → NStep w w2
  | collect (w w2 : World) : w.collect_unused_entities = some w2 → NStep w w2

/-- States reachable without ever packing or copying onto entity 0. -/
def NReachable (w : World) : Prop := Relation.ReflTransGen NStep World.init w

/-- Entity 0 holds nothing: its mask is empty, no store maps it to a
slot, no slot maps back to it, and every store is well-formed. -/
structure NullClean (w : World) : Prop where
  mask0 : w.entity_masks NullEntity = ∅
  etp0 : ∀ t, (w.components t).entity_to_packed NullEntity = none
  pte0 : ∀ t p, (w.components t).packed_to_entity p ≠ some NullEntity
  sinv : ∀ t, StoreInv (w.components t)

/-! ## The system list

Systems are opaque (their ids stand for the `System *` pointers), and
system types for the `type_id_t` tokens; World keeps the two parallel
vectors `active_systems` and `active_system_types`. -/

/-- The system bookkeeping of World from entity.h. -/
structure SystemList where
  active_systems : List Nat := []
  active_system_types : List Nat := []
deriving DecidableEq

/-- World::make_system from entity.h: push the system and its type onto
the parallel vectors (the load hook is a side effect outside the
model). -/
def make_system (sl : SystemList) (sys t : Nat) : SystemList :=
  { active_systems := sl.active_systems ++ [sys]
    active_system_types := sl.active_system_types ++ [t] }

/-- World::make_system_before from entity.h: find the first occurrence
of the Before type; when absent, log and return without adding the
system to the world at all; when found at position i of n entries,
insert the system at position `distance(pos, end) - 1 = n - i - 1` of
active_systems and its type at position i of active_system_types —
exactly as the C++ does. -/
def make_system_before (sl : SystemList) (beforeT sys t : Nat) : SystemList :=
  match sl.active_system_types.indexOf? beforeT with
  | none => sl
  | some i =>
    { active_systems :=
        sl.active_systems.insertIdx (sl.active_system_types.length - i - 1) sys
      active_system_types := sl.active_system_types.insertIdx i t }

/-- The World after creating entity 1 and giving it component 1. -/
def C4w : World := wAfter [WOp.make, WOp.pack 1 1 7]

theorem storeInv_empty {T : Type} : StoreInv ({} : ComponentArray T) := by
  refine ⟨?_, ?_, ?_, ?_⟩
  · intro e p h
    exact Option.noConfusion h
  · intro p e h
    exact Option.noConfusion h
  · intro p hp
    exact absurd hp (Nat.not_lt_zero p)
  · exact Nat.zero_le _

theorem write_eq_replace {T : Type} (s : ComponentArray T) (e : Nat) (c : T)
    (pos : Nat) (heq : s.entity_to_packed e = some pos) :
    s.write e c = { s with packed_array := s.packed_array.set pos c } := by
  unfold ComponentArray.write
  rw [heq]

theorem write_eq_append {T : Type} (s : ComponentArray T) (e : Nat) (c : T)
    (heq : s.entity_to_packed e = none) :
    s.write e c =
      { packed_array :=
          if s.packed_count < s.packed_array.length then
            s.packed_array.set s.packed_count c
          else s.packed_array ++ [c]
        entity_to_packed := fun x =>
          if x = e then some s.packed_count else s.entity_to_packed x
        packed_to_entity := fun p =>
          if p = s.packed_count then some e else s.packed_to_entity p
        packed_count := s.packed_count + 1 } := by
  unfold ComponentArray.write
  rw [heq]

theorem storeInv_write {T : Type} (s : ComponentArray T) (e : Nat) (c : T)
    (h : StoreInv s) : StoreInv (s.write e c) := by
  cases heq : s.entity_to_packed e with
  | some pos =>
    rw [write_eq_replace s e c pos heq]
    refine ⟨h.left, h.right, h.full, ?_⟩
    dsimp only
    rw [List.length_set]
    exact h.len
  | none =>
    rw [write_eq_append s e c heq]
    refine ⟨?_, ?_, ?_, ?_⟩
    · intro x p hx
      dsimp only at hx ⊢
      by_cases hxe : x = e
      · rw [if_pos hxe] at hx
        injection hx with hx
        subst hx
        exact ⟨Nat.lt_succ_self _, by rw [if_pos rfl, hxe]⟩
      · rw [if_neg hxe] at hx
        rcases h.left x p hx with ⟨hp, hpte⟩
        exact ⟨Nat.lt_succ_of_lt hp, by rw [if_neg (Nat.ne_of_lt hp)]; exact hpte⟩
    · intro p x hp
      dsimp only at hp ⊢
      by_cases hps : p = s.packed_count
      · rw [if_pos hps] at hp
        injection hp with hp
        subst hps
        refine ⟨Nat.lt_succ_self _, ?_⟩
        rw [if_pos hp.symm]
      · rw [if_neg hps] at hp
        rcases h.right p x hp with ⟨hplt, hetp⟩
        have hxe : x ≠ e := by
          intro hc
          rw [hc, heq] at hetp
          exact Option.noConfusion hetp
        exact ⟨Nat.lt_succ_of_lt hplt, by rw [if_neg hxe]; exact hetp⟩
    · intro p hp
      dsimp only at hp ⊢
      by_cases hps : p = s.packed_count
      · rw [if_pos hps]
        rfl
      · rw [if_neg hps]
        exact h.full p (by omega)
    · dsimp only
      split
      · rw [List.length_set]
        omega
      · rw [List.length_append, List.length_cons, List.length_nil]
        have := h.len
        omega

theorem remove_eq_noop {T : Type} [Inhabited T] (s : ComponentArray T) (e : Nat)
    (heq : s.entity_to_packed e = none) : s.remove e = s := by
  unfold ComponentArray.remove
  rw [heq]

theorem remove_eq_swap {T : Type} [Inhabited T] (s : ComponentArray T) (e : Nat)
    (removed : Nat) (heq : s.entity_to_packed e = some removed) :
    s.remove e =
      { packed_array := s.packed_array.set removed
          (s.packed_array.getD (s.packed_count - 1) default)
        entity_to_packed := fun x =>
          if x = e then none
          else if x = (s.packed_to_entity (s.packed_count - 1)).getD 0 then
            some removed
          else s.entity_to_packed x
        packed_to_entity := fun p =>
          if p = s.packed_count - 1 then none
          else if p = removed then
            some ((s.packed_to_entity (s.packed_count - 1)).getD 0)
          else s.packed_to_entity p
        packed_count := s.packed_count - 1 } := by
  unfold ComponentArray.remove
  rw [heq]

theorem storeInv_remove {T : Type} [Inhabited T] (s : ComponentArray T) (e : Nat)
    (h : StoreInv s) : StoreInv (s.remove e) := by
  cases heq : s.entity_to_packed e with
  | none => rw [remove_eq_noop s e heq]; exact h
  | some removed =>
    rcases h.left e removed heq with ⟨hrem, hpterem⟩
    have hcount : 1 ≤ s.packed_count := by omega
    have hlastlt : s.packed_count - 1 < s.packed_count := by omega
    obtain ⟨m, hm⟩ := Option.isSome_iff_exists.mp (h.full (s.packed_count - 1) hlastlt)
    rcases h.right (s.packed_count - 1) m hm with ⟨_, hetpm⟩
    have hmoved : (s.packed_to_entity (s.packed_count - 1)).getD 0 = m := by
      rw [hm]
      rfl
    have hiff : removed = s.packed_count - 1 ↔ m = e := by
      constructor
      · intro hrl
        rw [hrl, hm] at hpterem
        injection hpterem
      · intro hme
        rw [hme, heq] at hetpm
        injection hetpm
    rw [remove_eq_swap s e removed heq]
    refine ⟨?_, ?_, ?_, ?_⟩
    · intro x p hx
      dsimp only at hx ⊢
      rw [hmoved] at hx
      by_cases hxe : x = e
      · rw [if_pos hxe] at hx
        exact Option.noConfusion hx
      · rw [if_neg hxe] at hx
        by_cases hxm : x = m
        · rw [if_pos hxm] at hx
          injection hx with hx
          subst hx
          have hme : m ≠ e := fun hc => hxe (hxm.trans hc)
          have hrl : removed ≠ s.packed_count - 1 := fun hc => hme (hiff.mp hc)
          refine ⟨by omega, ?_⟩
          rw [hmoved, if_neg hrl, if_pos rfl, hxm]
        · rw [if_neg hxm] at hx
          rcases h.left x p hx with ⟨hp, hpte⟩
          have hpl : p ≠ s.packed_count - 1 := by
            intro hc
            rw [hc, hm] at hpte
            injection hpte with h2
            exact hxm h2.symm
          have hpr : p ≠ removed := by
            intro hc
            rw [hc, hpterem] at hpte
            injection hpte with h2
            exact hxe h2.symm
          refine ⟨by omega, ?_⟩
          rw [hmoved, if_neg hpl, if_neg hpr]
          exact hpte
    · intro p x hp
      dsimp only at hp ⊢
      rw [hmoved] at hp
      by_cases hpl : p = s.packed_count - 1
      · rw [if_pos hpl] at hp
        exact Option.noConfusion hp
      · rw [if_neg hpl] at hp
        by_cases hpr : p = removed
        · rw [if_pos hpr] at hp
          injection hp with hp
          have hrl : removed ≠ s.packed_count - 1 := fun hc => hpl (hpr.trans hc)
          have hme : m ≠ e := fun hc => hrl (hiff.mpr hc)
          have hxm : x = m := hp.symm
          refine ⟨by omega, ?_⟩
          rw [hmoved, if_neg (hxm ▸ hme), if_pos hxm, hpr]
        · rw [if_neg hpr] at hp
          rcases h.right p x hp with ⟨hplt, hetp⟩
          have hxe : x ≠ e := by
            intro hc
            rw [hc, heq] at hetp
            injection hetp with h2
            exact hpr h2.symm
          have hxm : x ≠ m := by
            intro hc
            rw [hc, hetpm] at hetp
            injection hetp with h2
            exact hpl h2.symm
          refine ⟨by omega, ?_⟩
          rw [hmoved, if_neg hxe, if_neg hxm]
          exact hetp
    · intro p hp
      dsimp only at hp ⊢
      have hpl : p ≠ s.packed_count - 1 := by omega
      rw [if_neg hpl]
      by_cases hpr : p = removed
      · rw [if_pos hpr]
        rfl
      · rw [if_neg hpr]
        exact h.full p (by omega)
    · dsimp only
      rw [List.length_set]
      exact Nat.le_trans (Nat.sub_le _ _) h.len

theorem storeInv_caRun {T : Type} [Inhabited T] (ops : List (CAOp T)) :
    StoreInv (caRun ops) := by
  unfold caRun
  have h : ∀ (l : List (CAOp T)) (s : ComponentArray T), StoreInv s →
      StoreInv (l.foldl
        (fun s op =>
          match op with
          | .write e v => s.write e v
          | .remove e => s.remove e) s) := by
    intro l
    induction l with
    | nil => intro s hs; exact hs
    | cons op rest ih =>
      intro s hs
      cases op with
      | write e v => exact ih _ (storeInv_write s e v hs)
      | remove e => exact ih _ (storeInv_remove s e hs)
  exact h ops {} storeInv_empty

theorem holders_ncard {T : Type} (s : ComponentArray T) (h : StoreInv s) :
    Set.ncard {e : Nat | s.contains e} = s.packed_count := by
  have himg : {e : Nat | s.contains e} =
      ↑((Finset.range s.packed_count).image
        (fun p => (s.packed_to_entity p).getD 0)) := by
    ext x
    simp only [Set.mem_setOf_eq, Finset.coe_image, Set.mem_image,
      Finset.mem_coe, Finset.mem_range, ComponentArray.contains]
    constructor
    · intro hx
      obtain ⟨p, hp⟩ := Option.isSome_iff_exists.mp hx
      rcases h.left x p hp with ⟨hplt, hpte⟩
      exact ⟨p, hplt, by rw [hpte]; rfl⟩
    · rintro ⟨p, hplt, rfl⟩
      obtain ⟨y, hy⟩ := Option.isSome_iff_exists.mp (h.full p hplt)
      rcases h.right p y hy with ⟨_, hetp⟩
      rw [hy]
      simpa using Option.isSome_iff_exists.mpr ⟨p, hetp⟩
  rw [himg, Set.ncard_coe_Finset]
  rw [Finset.card_image_of_injOn, Finset.card_range]
  intro p hp q hq hfeq
  simp only [Finset.coe_range, Set.mem_Iio] at hp hq
  obtain ⟨a, ha⟩ := Option.isSome_iff_exists.mp (h.full p hp)
  obtain ⟨b, hb⟩ := Option.isSome_iff_exists.mp (h.full q hq)
  dsimp only at hfeq
  rw [ha, hb] at hfeq
  simp only [Option.getD_some] at hfeq
  subst hfeq
  rcases h.right p a ha with ⟨_, hetpa⟩
  rcases h.right q a hb with ⟨_, hetpb⟩
  rw [hetpa] at hetpb
  injection hetpb

/-- Claim C3: for every sequence of write and remove operations on a
ComponentArray<T>, count() equals the number of distinct entities
currently holding a T component, the maps entity_to_packed and
packed_to_entity are exact inverses of each other over the slot range
[0, count), and remove on an entity that holds no T leaves the store
unchanged. -/
theorem claim_C3 (T : Type) [Inhabited T] (ops : List (CAOp T)) :
    (Set.ncard {e : Nat | (caRun ops).contains e} = (caRun ops).packed_count)
    ∧ (∀ e p, (caRun ops).entity_to_packed e = some p →
        p < (caRun ops).packed_count ∧ (caRun ops).packed_to_entity p = some e)
    ∧ (∀ p, p < (caRun ops).packed_count →
        ∃ e, (caRun ops).packed_to_entity p = some e
          ∧ (caRun ops).entity_to_packed e = some p)
    ∧ (∀ (s : ComponentArray T) (e : Nat), s.contains e = false → s.remove e = s) := by
  have h := storeInv_caRun ops
  refine ⟨holders_ncard _ h, h.left, ?_, ?_⟩
  · intro p hp
    obtain ⟨e, he⟩ := Option.isSome_iff_exists.mp (h.full p hp)
    exact ⟨e, he, (h.right p e he).2⟩
  · intro s e hc
    have hnone : s.entity_to_packed e = none := by
      unfold ComponentArray.contains at hc
      exact Option.not_isSome_iff_eq_none.mp (by rw [hc]; exact Bool.false_ne_true)
    exact remove_eq_noop s e hnone

/-- Witness for claim C3 at a concrete input: after writing components
for entities 3 and 5, entity 9 holds nothing and removing it is a no-op. -/
theorem claim_C3_witness :
    (caRun [CAOp.write 3 (10 : Nat), CAOp.write 5 11, CAOp.remove 9]).contains 9 = false
    ∧ (caRun [CAOp.write 3 (10 : Nat), CAOp.write 5 11, CAOp.remove 9]).remove 9
      = caRun [CAOp.write 3 (10 : Nat), CAOp.write 5 11, CAOp.remove 9] :=
  ⟨by rfl, (claim_C3 Nat [CAOp.write 3 (10 : Nat), CAOp.write 5 11, CAOp.remove 9]).2.2.2
    _ 9 (by rfl)⟩

theorem step_of_runOp (w w2 : World) (op : WOp) (h : runOp w op = some w2) :
    Step w w2 := by
  cases op with
  | make =>
    obtain ⟨r, hr, hr2⟩ := Option.map_eq_some'.mp h
    exact hr2 ▸ Step.make w r.1 r.2 (by rw [hr])
  | make_inactive =>
    obtain ⟨r, hr, hr2⟩ := Option.map_eq_some'.mp h
    exact hr2 ▸ Step.make_inactive w r.1 r.2 (by rw [hr])
  | pack e t v =>
    simp only [runOp] at h
    split at h
    · injection h with h
      exact h ▸ Step.pack w e t v (by assumption)
    · exact Option.noConfusion h
  | remove_component e t =>
    simp only [runOp] at h
    split at h
    · injection h with h
      exact h ▸ Step.remove_component w e t (by assumption)
    · exact Option.noConfusion h
  | copy dst src =>
    simp only [runOp] at h
    split at h
    · injection h with h
      rename_i hg
      exact h ▸ Step.copy w dst src hg.1 hg.2
    · exact Option.noConfusion h
  | destroy e =>
    simp only [runOp] at h
    split at h
    · injection h with h
      rename_i hg
      exact h ▸ Step.destroy w e hg.1 hg.2
    · exact Option.noConfusion h
  | view ts ia =>
    obtain ⟨r, hr, hr2⟩ := Option.map_eq_some'.mp h
    exact hr2 ▸ Step.view w ts ia r.1 r.2 (by rw [hr])
  | collect => exact Step.collect w w2 h

theorem reachable_runOps (ops : List WOp) (w w2 : World) (hw : Reachable w)
    (h : runOps w ops = some w2) : Reachable w2 := by
  induction ops generalizing w with
  | nil =>
    unfold runOps at h
    injection h with h
    exact h ▸ hw
  | cons op rest ih =>
    unfold runOps at h
    cases hop : runOp w op with
    | none => rw [hop] at h; exact Option.noConfusion h
    | some w3 =>
      rw [hop] at h
      exact ih w3 (Relation.ReflTransGen.tail hw (step_of_runOp w w3 op hop)) h

theorem reachable_wAfter (ops : List WOp)
    (h : (runOps World.init ops).isSome = true) : Reachable (wAfter ops) := by
  obtain ⟨w, hw⟩ := Option.isSome_iff_exists.mp h
  have he : wAfter ops = w := by unfold wAfter; rw [hw]; rfl
  rw [he]
  exact reachable_runOps ops World.init w Relation.ReflTransGen.refl hw

/-- Claim C1 is refuted by the code: at the reachable state reached by
`C1trace`, the view for component set {1} with include_inactive = false
returns [1] even though entity 1 — alive and holding Active — holds no
component 1 (its mask is {ActiveId} and the store for type 1 does not
contain it).  The pending Add diff raised by pack was not cancelled by
remove_component, because remove_component only queues a Remove when
the entity is in the cache's lookup set, which is updated lazily. -/
theorem claim_C1 :
    Reachable (wAfter C1trace)
    ∧ viewList (wAfter C1trace) {1} false = some [1]
    ∧ 1 ∈ (wAfter C1trace).entities
    ∧ ActiveId ∈ (wAfter C1trace).entity_masks 1
    ∧ (1 : Nat) ∉ (wAfter C1trace).entity_masks 1
    ∧ ((wAfter C1trace).components 1).contains 1 = false :=
  ⟨reachable_wAfter C1trace (by decide), by decide, by decide, by decide,
   by decide, by decide⟩

/-- Claim C2 is refuted by the code: entity 1 previously matched the
view for {Active, 1} (that view returned [1] right after the pack), yet
after destroy_entity(1), while its destruction record is still
unflushed (entity 1 is no longer alive), the same view returns [1]
again: destroy_entity skipped the cache because entity 1 was not in its
lookup set, leaving the stale pending Add diff in place. -/
theorem claim_C2 :
    viewList (wAfter [WOp.make, WOp.pack 1 1 7]) {1} false = some [1]
    ∧ Reachable (wAfter C2trace)
    ∧ (wAfter C2trace).entities = [0]
    ∧ (wAfter C2trace).destroyed_entities = [{ entity := 1, caches := [] }]
    ∧ viewList (wAfter C2trace) {1} false = some [1] :=
  ⟨by decide, reachable_wAfter C2trace (by decide), by decide, by decide,
   by decide⟩

/-- Counterexample to claim C5 as stated: at the reachable state after
`C5trace`, the cache for mask {ActiveId} holds two identical
(entity 1, Remove) entries in its pending diff queue, because
destroy_entity appends diffs without the dedup scan. -/
theorem claim_C5_counterexample :
    Reachable (wAfter C5trace)
    ∧ cacheDiffs (wAfter C5trace) {ActiveId} =
      some [{ entity := 1, op := .Remove }, { entity := 1, op := .Remove }] :=
  ⟨reachable_wAfter C5trace (by decide), by decide⟩

/-- Counterexample to claim C6 as stated: a pack → remove_component →
pack toggle on the same entity before the cache is next viewed leaves a
single queued diff, not three.  When the entity is not in the cache's
lookup set (`C6trace`) the queue holds exactly the one Add raised by
the first pack (the Remove is skipped because the entity is not in the
lookup set, and the second Add is discarded by the dedup scan); when
the entity is in the lookup set (`C6traceB`) the queue holds exactly
one Remove. -/
theorem claim_C6_counterexample :
    Reachable (wAfter C6trace)
    ∧ cacheDiffs (wAfter C6trace) {ActiveId, 1} =
      some [{ entity := 1, op := .Add }]
    ∧ Reachable (wAfter C6traceB)
    ∧ cacheDiffs (wAfter C6traceB) {ActiveId, 1} =
      some [{ entity := 1, op := .Remove }] :=
  ⟨reachable_wAfter C6trace (by decide), by decide,
   reachable_wAfter C6traceB (by decide), by decide⟩

/-- Counterexample to claim C9 as stated: entity 0 is alive (it is in
the live list), so packing onto it is a reachable public operation, and
afterwards entity 0 holds component 5 — the code does not enforce that
the NullEntity never holds components. -/
theorem claim_C9_counterexample :
    Reachable (wAfter C9trace)
    ∧ ((wAfter C9trace).components 5).contains NullEntity = true
    ∧ (5 : Nat) ∈ (wAfter C9trace).entity_masks NullEntity :=
  ⟨reachable_wAfter C9trace (by decide), by decide, by decide⟩

/-! ## The entity registry invariant

The swap-with-last removal is, up to order, erasure of the first
occurrence; on duplicate-free lists this gives exact membership
control. -/

theorem removeSwap_perm (l : List Nat) (e : Nat) (he : e ∈ l) :
    (removeSwap l e).Perm (l.erase e) := by
  have hi : l.indexOf e < l.length := List.indexOf_lt_length.mpr he
  have hne : l ≠ [] := List.ne_nil_of_length_pos (Nat.lt_of_le_of_lt (Nat.zero_le _) hi)
  have hgete : l[l.indexOf e] = e := List.getElem_indexOf hi
  have hlen1 : l.length - 1 < l.length := by omega
  have hb : l.getLastD 0 = l[l.length - 1] := by
    rw [List.getLastD_eq_getLast?, List.getLast?_eq_getLast l hne]
    simp [List.getLast_eq_getElem]
  have hperm2 : (l.erase e).Perm (l.eraseIdx (l.indexOf e)) := by
    conv_lhs => rw [← hgete]
    exact List.erase_getElem hi
  rw [List.eraseIdx_eq_take_drop_succ] at hperm2
  have key : (removeSwap l e).Perm
      (l.take (l.indexOf e) ++ l.drop (l.indexOf e + 1)) := by
    unfold removeSwap
    rw [List.dropLast_eq_take, List.length_set,
      List.set_eq_take_cons_drop _ hi, List.take_append_eq_append_take,
      List.take_take, List.length_take]
    have hmin : min (l.length - 1) (l.indexOf e) = l.indexOf e := by omega
    have hmin2 : min (l.indexOf e) l.length = l.indexOf e := by omega
    rw [hmin, hmin2]
    by_cases hlast : l.indexOf e = l.length - 1
    · have h0 : l.length - 1 - l.indexOf e = 0 := by omega
      have hdrop : l.drop (l.indexOf e + 1) = [] := by
        apply List.drop_eq_nil_of_le
        omega
      rw [h0, List.take_zero, hdrop]
    · have hsucc : l.length - 1 - l.indexOf e = (l.length - 2 - l.indexOf e) + 1 := by
        omega
      rw [hsucc, List.take_succ_cons]
      apply List.Perm.append_left
      have hdlen : (l.drop (l.indexOf e + 1)).length = l.length - l.indexOf e - 1 := by
        rw [List.length_drop]
        omega
      have hdne : l.drop (l.indexOf e + 1) ≠ [] := by
        apply List.ne_nil_of_length_pos
        omega
      have hdl : List.take (l.length - 2 - l.indexOf e) (l.drop (l.indexOf e + 1))
          = (l.drop (l.indexOf e + 1)).dropLast := by
        rw [List.dropLast_eq_take, hdlen]
        congr 1
        omega
      have hlastd : (l.drop (l.indexOf e + 1)).getLast hdne = l.getLastD 0 := by
        rw [List.getLast_eq_getElem, List.getElem_drop]
        rw [hb]
        congr 1
        rw [hdlen]
        omega
      rw [hdl]
      have hcat : (l.drop (l.indexOf e + 1)).dropLast ++ [l.getLastD 0]
          = l.drop (l.indexOf e + 1) := by
        rw [← hlastd]
        exact List.dropLast_append_getLast hdne
      conv_rhs => rw [← hcat]
      exact (List.perm_append_singleton _ _).symm
  exact key.trans hperm2.symm

theorem removeSwap_nodup (l : List Nat) (e : Nat) (hnd : l.Nodup) (he : e ∈ l) :
    (removeSwap l e).Nodup :=
  ((removeSwap_perm l e he).nodup_iff).mpr (hnd.erase e)

theorem mem_removeSwap (l : List Nat) (e x : Nat) (hnd : l.Nodup) (he : e ∈ l) :
    x ∈ removeSwap l e ↔ x ∈ l ∧ x ≠ e := by
  rw [(removeSwap_perm l e he).mem_iff, hnd.mem_erase_iff]
  tauto

theorem length_removeSwap (l : List Nat) (e : Nat) (he : e ∈ l) :
    (removeSwap l e).length = l.length - 1 := by
  rw [(removeSwap_perm l e he).length_eq, List.length_erase_of_mem he]

theorem regInv_init : RegInv World.init := by
  refine ⟨List.nodup_nil, List.nodup_nil, List.nodup_nil, ?_, ?_, ?_, ?_, ?_, ?_, ?_, ?_, ?_⟩
  all_goals intro h
  all_goals first
    | exact absurd h (List.not_mem_nil _)
    | exact absurd h (Nat.lt_irrefl 0)
    | (intro h2; exact absurd h2 (List.not_mem_nil _))

theorem regInv_congr (w w2 : World) (hE : w2.entities = w.entities)
    (hU : w2.unused_entities = w.unused_entities)
    (hD : w2.destroyed_entities = w.destroyed_entities)
    (hA : w2.alive_count = w.alive_count) (h : RegInv w) : RegInv w2 := by
  have hrec : recIds w2 = recIds w := by unfold recIds; rw [hD]
  exact ⟨by rw [hE]; exact h.nodupE, by rw [hU]; exact h.nodupU,
    by rw [hrec]; exact h.nodupD,
    by rw [hE, hU]; exact h.djEU, by rw [hE, hrec]; exact h.djED,
    by rw [hU, hrec]; exact h.djUD,
    by rw [hE, hA]; exact h.boundE, by rw [hU, hA]; exact h.boundU,
    by rw [hrec, hA]; exact h.boundD,
    by rw [hE, hA]; exact h.zeroE, by rw [hU]; exact h.zeroU,
    by rw [hrec]; exact h.zeroD⟩

theorem nodup_concat {A : Type} (l : List A) (a : A) (h : l.Nodup) (ha : a ∉ l) :
    (l ++ [a]).Nodup := by
  rw [List.nodup_append]
  exact ⟨h, List.nodup_singleton a, by
    intro x hx hxa
    rw [List.mem_singleton] at hxa
    exact ha (hxa ▸ hx)⟩

theorem pack_fields (w : World) (e t v : Nat) :
    (w.pack e t v).entities = w.entities
    ∧ (w.pack e t v).unused_entities = w.unused_entities
    ∧ (w.pack e t v).destroyed_entities = w.destroyed_entities
    ∧ (w.pack e t v).alive_count = w.alive_count := by
  simp only [World.pack]
  split <;> exact ⟨rfl, rfl, rfl, rfl⟩

theorem view_fields (w : World) (ts : Finset Nat) (ia : Bool) (res : List Nat)
    (w2 : World) (h : w.view ts ia = some (res, w2)) :
    w2.entities = w.entities
    ∧ w2.unused_entities = w.unused_entities
    ∧ w2.destroyed_entities = w.destroyed_entities
    ∧ w2.alive_count = w.alive_count := by
  unfold World.view at h
  cases hfc : findCache w.view_cache (if ia then ts else insert ActiveId ts) with
  | some c =>
    simp only [hfc] at h
    split at h
    · injection h with h
      injection h with h1 h2
      rw [← h2]
      exact ⟨rfl, rfl, rfl, rfl⟩
    · obtain ⟨c2, hc2, hw2⟩ := Option.map_eq_some'.mp h
      injection hw2 with h1 h2
      rw [← h2]
      exact ⟨rfl, rfl, rfl, rfl⟩
  | none =>
    simp only [hfc] at h
    injection h with h
    injection h with h1 h2
    rw [← h2]
    exact ⟨rfl, rfl, rfl, rfl⟩

theorem collectLoop_pool (ds : List DestroyedEntity) :
    ∀ (vc : List (EntityMask × EntityCache)) (pool : List Nat) r,
    collectLoop vc pool ds = some r →
    r.2 = pool ++ ds.map (fun d => d.entity) := by
  induction ds with
  | nil =>
    intro vc pool r h
    unfold collectLoop at h
    injection h with h
    rw [← h, List.map_nil, List.append_nil]
  | cons d ds ih =>
    intro vc pool r h
    unfold collectLoop at h
    cases hap : applyCachesAt vc d.caches with
    | none => rw [hap] at h; exact Option.noConfusion h
    | some vc2 =>
      rw [hap] at h
      have := ih vc2 (pool ++ [d.entity]) r h
      rw [this, List.map_cons, List.append_assoc]
      rfl

theorem collect_fields (w w2 : World) (h : w.collect_unused_entities = some w2) :
    w2.entities = w.entities
    ∧ w2.alive_count = w.alive_count
    ∧ w2.unused_entities = w.unused_entities ++ recIds w
    ∧ w2.destroyed_entities = [] := by
  unfold World.collect_unused_entities at h
  obtain ⟨r, hr, hw2⟩ := Option.map_eq_some'.mp h
  have hp := collectLoop_pool w.destroyed_entities w.view_cache w.unused_entities r hr
  rw [← hw2]
  exact ⟨rfl, rfl, hp, rfl⟩

theorem make_inactive_cases (w : World) (e : Nat) (w2 : World)
    (h : w.make_inactive_entity = some (e, w2)) :
    (w.unused_entities.getLast? = some e
      ∧ w2 = { w with
          unused_entities := w.unused_entities.dropLast
          entities := w.entities ++ [e]
          alive_count := w.alive_count + 1 })
    ∨ (w.unused_entities = [] ∧ w.alive_count = 0 ∧ e = 1
      ∧ w2 = { w with
          entities := (w.entities ++ [NullEntity]) ++ [1]
          alive_count := 2 })
    ∨ (w.unused_entities = [] ∧ 0 < w.alive_count
      ∧ w.alive_count < TWO_ENTITY_MAX ∧ e = w.alive_count
      ∧ w2 = { w with
          entities := w.entities ++ [w.alive_count]
          alive_count := w.alive_count + 1 }) := by
  unfold World.make_inactive_entity at h
  cases hlast : w.unused_entities.getLast? with
  | some u =>
    rw [hlast] at h
    dsimp only at h
    injection h with h
    injection h with h1 h2
    left
    rw [← h1]
    exact ⟨rfl, h2.symm⟩
  | none =>
    rw [hlast] at h
    dsimp only at h
    have hnil : w.unused_entities = [] := List.getLast?_eq_none_iff.mp hlast
    split at h
    · split at h
      · injection h with h
        injection h with h1 h2
        right
        left
        refine ⟨hnil, by assumption, h1.symm, h2.symm⟩
      · injection h with h
        injection h with h1 h2
        right
        right
        have hz : ¬ w.alive_count = NullEntity := by assumption
        refine ⟨hnil, Nat.pos_of_ne_zero hz, by assumption, h1.symm, h2.symm⟩
    · exact Option.noConfusion h

theorem regInv_make_inactive (w : World) (e : Nat) (w2 : World)
    (h : w.make_inactive_entity = some (e, w2)) (hw : RegInv w) : RegInv w2 := by
  rcases make_inactive_cases w e w2 h with ⟨hlast, hw2⟩ | ⟨hnil, ha0, he1, hw2⟩
    | ⟨hnil, hapos, hamax, he, hw2⟩
  · -- recycled id from the back of the free pool
    have hsplit : w.unused_entities.dropLast ++ [e] = w.unused_entities :=
      List.dropLast_append_getLast? e hlast
    have hu : e ∈ w.unused_entities := by
      rw [← hsplit]
      exact List.mem_append.mpr (Or.inr (List.mem_singleton_self e))
    have hsub : ∀ x, x ∈ w.unused_entities.dropLast → x ∈ w.unused_entities := by
      intro x hx
      exact (List.dropLast_sublist w.unused_entities).subset hx
    have hnd2 : (w.unused_entities.dropLast ++ [e]).Nodup := by
      rw [hsplit]
      exact hw.nodupU
    have hnotin : e ∉ w.unused_entities.dropLast := by
      rw [List.nodup_append] at hnd2
      intro hc
      exact hnd2.2.2 hc (List.mem_singleton_self e)
    subst hw2
    refine ⟨?_, ?_, ?_, ?_, ?_, ?_, ?_, ?_, ?_, ?_, ?_, ?_⟩ <;> dsimp only [recIds]
    · exact nodup_concat _ _ hw.nodupE (fun hc => hw.djEU e hc hu)
    · exact List.Nodup.sublist (List.dropLast_sublist _) hw.nodupU
    · exact hw.nodupD
    · intro x hx
      rcases List.mem_append.mp hx with hx2 | hx2
      · intro hc
        exact hw.djEU x hx2 (hsub x hc)
      · rw [List.mem_singleton] at hx2
        subst hx2
        exact hnotin
    · intro x hx
      rcases List.mem_append.mp hx with hx2 | hx2
      · exact hw.djED x hx2
      · rw [List.mem_singleton] at hx2
        subst hx2
        exact hw.djUD x hu
    · intro x hx
      exact hw.djUD x (hsub x hx)
    · intro x hx
      rcases List.mem_append.mp hx with hx2 | hx2
      · exact Nat.lt_succ_of_lt (hw.boundE x hx2)
      · rw [List.mem_singleton] at hx2
        subst hx2
        exact Nat.lt_succ_of_lt (hw.boundU x hu)
    · intro x hx
      exact Nat.lt_succ_of_lt (hw.boundU x (hsub x hx))
    · intro x hx
      exact Nat.lt_succ_of_lt (hw.boundD x hx)
    · intro _
      have hap : 0 < w.alive_count :=
        Nat.lt_of_le_of_lt (Nat.zero_le _) (hw.boundU e hu)
      exact List.mem_append.mpr (Or.inl (hw.zeroE hap))
    · intro hc
      exact hw.zeroU (hsub _ hc)
    · exact hw.zeroD
  · -- very first creation: NullEntity and entity 1 are both created
    have hEnil : w.entities = [] := by
      rw [List.eq_nil_iff_forall_not_mem]
      intro x hx
      have := hw.boundE x hx
      omega
    subst hw2
    refine ⟨?_, ?_, ?_, ?_, ?_, ?_, ?_, ?_, ?_, ?_, ?_, ?_⟩ <;> dsimp only [recIds]
    · rw [hEnil]
      decide
    · exact hw.nodupU
    · exact hw.nodupD
    · intro x hx
      rw [hnil]
      exact List.not_mem_nil x
    · intro x hx
      intro hc
      have := hw.boundD x hc
      omega
    · intro x hx
      rw [hnil] at hx
      exact absurd hx (List.not_mem_nil x)
    · intro x hx
      rw [hEnil] at hx
      have : x = 0 ∨ x = 1 := by
        simp only [List.nil_append, List.cons_append, List.mem_cons,
          List.not_mem_nil, or_false, NullEntity] at hx
        tauto
      omega
    · intro x hx
      rw [hnil] at hx
      exact absurd hx (List.not_mem_nil x)
    · intro x hx
      have := hw.boundD x hx
      omega
    · intro _
      exact List.mem_append.mpr (Or.inl (List.mem_append.mpr
        (Or.inr (List.mem_singleton_self 0))))
    · rw [hnil]
      exact List.not_mem_nil _
    · exact hw.zeroD
  · -- fresh sequential id
    have hfresh : ∀ x, x ∈ w.entities ∨ x ∈ w.unused_entities ∨ x ∈ recIds w →
        x ≠ w.alive_count := by
      intro x hx
      rcases hx with hx | hx | hx
      · exact Nat.ne_of_lt (hw.boundE x hx)
      · exact Nat.ne_of_lt (hw.boundU x hx)
      · exact Nat.ne_of_lt (hw.boundD x hx)
    subst hw2
    refine ⟨?_, ?_, ?_, ?_, ?_, ?_, ?_, ?_, ?_, ?_, ?_, ?_⟩ <;> dsimp only [recIds]
    · exact nodup_concat _ _ hw.nodupE (fun hc => hfresh _ (Or.inl hc) rfl)
    · exact hw.nodupU
    · exact hw.nodupD
    · intro x hx
      rcases List.mem_append.mp hx with hx2 | hx2
      · exact hw.djEU x hx2
      · rw [List.mem_singleton] at hx2
        subst hx2
        intro hc
        exact hfresh _ (Or.inr (Or.inl hc)) rfl
    · intro x hx
      rcases List.mem_append.mp hx with hx2 | hx2
      · exact hw.djED x hx2
      · rw [List.mem_singleton] at hx2
        subst hx2
        intro hc
        exact hfresh _ (Or.inr (Or.inr hc)) rfl
    · exact hw.djUD
    · intro x hx
      rcases List.mem_append.mp hx with hx2 | hx2
      · exact Nat.lt_succ_of_lt (hw.boundE x hx2)
      · rw [List.mem_singleton] at hx2
        subst hx2
        exact Nat.lt_succ_self _
    · intro x hx
      exact Nat.lt_succ_of_lt (hw.boundU x hx)
    · intro x hx
      exact Nat.lt_succ_of_lt (hw.boundD x hx)
    · intro _
      exact List.mem_append.mpr (Or.inl (hw.zeroE hapos))
    · exact hw.zeroU
    · exact hw.zeroD

theorem destroy_fields (w : World) (e : Nat) :
    (w.destroy_entity e).entities = removeSwap w.entities e
    ∧ (w.destroy_entity e).unused_entities = w.unused_entities
    ∧ (w.destroy_entity e).alive_count = w.alive_count
    ∧ recIds (w.destroy_entity e) = recIds w ++ [e] := by
  refine ⟨rfl, rfl, rfl, ?_⟩
  unfold recIds World.destroy_entity
  rw [List.map_append]
  rfl

theorem regInv_destroy (w : World) (e : Nat) (he0 : e ≠ NullEntity)
    (he : e ∈ w.entities) (hw : RegInv w) : RegInv (w.destroy_entity e) := by
  obtain ⟨hE, hU, hA, hD⟩ := destroy_fields w e
  have hmem : ∀ x, x ∈ (w.destroy_entity e).entities ↔ x ∈ w.entities ∧ x ≠ e := by
    intro x
    rw [hE]
    exact mem_removeSwap w.entities e x hw.nodupE he
  refine ⟨?_, ?_, ?_, ?_, ?_, ?_, ?_, ?_, ?_, ?_, ?_, ?_⟩
  · rw [hE]
    exact removeSwap_nodup _ _ hw.nodupE he
  · rw [hU]
    exact hw.nodupU
  · rw [hD]
    exact nodup_concat _ _ hw.nodupD (hw.djED e he)
  · intro x hx
    rw [hU]
    exact hw.djEU x ((hmem x).mp hx).1
  · intro x hx
    rw [hD]
    obtain ⟨hx2, hxne⟩ := (hmem x).mp hx
    intro hc
    rcases List.mem_append.mp hc with hc2 | hc2
    · exact hw.djED x hx2 hc2
    · rw [List.mem_singleton] at hc2
      exact hxne hc2
  · intro x hx
    rw [hU] at hx
    rw [hD]
    intro hc
    rcases List.mem_append.mp hc with hc2 | hc2
    · exact hw.djUD x hx hc2
    · rw [List.mem_singleton] at hc2
      subst hc2
      exact hw.djEU x he hx
  · intro x hx
    rw [hA]
    exact hw.boundE x ((hmem x).mp hx).1
  · intro x hx
    rw [hU] at hx
    rw [hA]
    exact hw.boundU x hx
  · intro x hx
    rw [hD] at hx
    rw [hA]
    rcases List.mem_append.mp hx with hx2 | hx2
    · exact hw.boundD x hx2
    · rw [List.mem_singleton] at hx2
      subst hx2
      exact hw.boundE x he
  · intro hp
    rw [hA] at hp
    exact (hmem NullEntity).mpr ⟨hw.zeroE hp, fun hc => he0 hc.symm⟩
  · rw [hU]
    exact hw.zeroU
  · rw [hD]
    intro hc
    rcases List.mem_append.mp hc with hc2 | hc2
    · exact hw.zeroD hc2
    · rw [List.mem_singleton] at hc2
      exact he0 hc2.symm

theorem regInv_collect (w w2 : World) (h : w.collect_unused_entities = some w2)
    (hw : RegInv w) : RegInv w2 := by
  obtain ⟨hE, hA, hU, hD⟩ := collect_fields w w2 h
  have hrec : recIds w2 = [] := by unfold recIds; rw [hD]; rfl
  refine ⟨?_, ?_, ?_, ?_, ?_, ?_, ?_, ?_, ?_, ?_, ?_, ?_⟩
  · rw [hE]
    exact hw.nodupE
  · rw [hU]
    rw [List.nodup_append]
    exact ⟨hw.nodupU, hw.nodupD, fun x hx hx2 => hw.djUD x hx hx2⟩
  · rw [hrec]
    exact List.nodup_nil
  · intro x hx
    rw [hE] at hx
    rw [hU]
    intro hc
    rcases List.mem_append.mp hc with hc2 | hc2
    · exact hw.djEU x hx hc2
    · exact hw.djED x hx hc2
  · intro x hx
    rw [hrec]
    exact List.not_mem_nil x
  · intro x hx
    rw [hrec]
    exact List.not_mem_nil x
  · intro x hx
    rw [hE] at hx
    rw [hA]
    exact hw.boundE x hx
  · intro x hx
    rw [hU] at hx
    rw [hA]
    rcases List.mem_append.mp hx with hx2 | hx2
    · exact hw.boundU x hx2
    · exact hw.boundD x hx2
  · intro x hx
    rw [hrec] at hx
    exact absurd hx (List.not_mem_nil x)
  · intro hp
    rw [hA] at hp
    rw [hE]
    exact hw.zeroE hp
  · rw [hU]
    intro hc
    rcases List.mem_append.mp hc with hc2 | hc2
    · exact hw.zeroU hc2
    · exact hw.zeroD hc2
  · rw [hrec]
    exact List.not_mem_nil _

theorem regInv_step (w w2 : World) (h : Step w w2) (hw : RegInv w) : RegInv w2 := by
  cases h with
  | make_inactive e w2 hm => exact regInv_make_inactive w e w2 hm hw
  | make e w2 hm =>
    unfold World.make_entity at hm
    obtain ⟨r, hr, heq⟩ := Option.map_eq_some'.mp hm
    injection heq with h1 h2
    have hri : RegInv r.2 := regInv_make_inactive w r.1 r.2 (by rw [hr]) hw
    obtain ⟨f1, f2, f3, f4⟩ := pack_fields r.2 r.1 ActiveId 0
    exact regInv_congr _ _ (h2 ▸ f1) (h2 ▸ f2) (h2 ▸ f3) (h2 ▸ f4) hri
  | pack e t v he =>
    obtain ⟨f1, f2, f3, f4⟩ := pack_fields w e t v
    exact regInv_congr _ _ f1 f2 f3 f4 hw
  | remove_component e t he =>
    exact regInv_congr w (w.remove_component e t) rfl rfl rfl rfl hw
  | copy dst src hd hs =>
    exact regInv_congr w (w.copy_entity dst src) rfl rfl rfl rfl hw
  | destroy e he0 he =>
    exact regInv_destroy w e he0 he hw
  | view ts ia res w2 hv =>
    obtain ⟨f1, f2, f3, f4⟩ := view_fields w ts ia res w2 hv
    exact regInv_congr _ _ f1 f2 f3 f4 hw
  | collect w2 hc =>
    exact regInv_collect w w2 hc hw

theorem reachable_regInv (w : World) (h : Reachable w) : RegInv w := by
  induction h with
  | refl => exact regInv_init
  | tail hab hbc ih => exact regInv_step _ _ hbc ih

/-- Claim C10: assuming destroy_entity is only ever called on a
currently-live, non-null entity (which the Step relation encodes,
matching the code's assertions): at every reachable state the
live-entity list has pairwise distinct ids, no id appears in more than
one of the live list, the pending-destruction records, and the free
pool, and a freshly allocated (non-recycled, i.e. free-pool-empty) id
is distinct from every id currently in any of those three places. -/
theorem claim_C10 (w : World) (h : Reachable w) :
    w.entities.Nodup
    ∧ (∀ e, e ∈ w.entities → e ∉ recIds w ∧ e ∉ w.unused_entities)
    ∧ (∀ e, e ∈ recIds w → e ∉ w.unused_entities)
    ∧ (∀ e w2, w.unused_entities = [] → w.make_inactive_entity = some (e, w2) →
        e ∉ w.entities ∧ e ∉ recIds w ∧ e ∉ w.unused_entities) := by
  have hw := reachable_regInv w h
  refine ⟨hw.nodupE, fun e he => ⟨hw.djED e he, hw.djEU e he⟩,
    fun e he hu => hw.djUD e hu he, ?_⟩
  intro e w2 hpool hm
  rcases make_inactive_cases w e w2 hm with ⟨hlast, _⟩ | ⟨_, ha0, he1, _⟩
    | ⟨_, _, _, he, _⟩
  · rw [hpool] at hlast
    exact absurd hlast (by simp)
  · subst he1
    refine ⟨?_, ?_, ?_⟩ <;> intro hc
    · have := hw.boundE 1 hc
      omega
    · have := hw.boundD 1 hc
      omega
    · have := hw.boundU 1 hc
      omega
  · subst he
    refine ⟨?_, ?_, ?_⟩ <;> intro hc
    · have := hw.boundE _ hc
      omega
    · have := hw.boundD _ hc
      omega
    · have := hw.boundU _ hc
      omega

/-- Witness for claim C10 at a concrete reachable state: the state after
creating entities 1 and 2, destroying 2, collecting, and recycling 2. -/
theorem claim_C10_witness :
    (wAfter C10trace).entities.Nodup
    ∧ (∀ e, e ∈ (wAfter C10trace).entities →
        e ∉ recIds (wAfter C10trace) ∧ e ∉ (wAfter C10trace).unused_entities)
    ∧ (∀ e, e ∈ recIds (wAfter C10trace) → e ∉ (wAfter C10trace).unused_entities)
    ∧ (∀ e w2, (wAfter C10trace).unused_entities = [] →
        (wAfter C10trace).make_inactive_entity = some (e, w2) →
        e ∉ (wAfter C10trace).entities ∧ e ∉ recIds (wAfter C10trace)
          ∧ e ∉ (wAfter C10trace).unused_entities) :=
  claim_C10 (wAfter C10trace) (reachable_wAfter C10trace (by decide))

theorem length_le_of_nodup_bound (l : List Nat) (n : Nat) (hnd : l.Nodup)
    (hb : ∀ x, x ∈ l → x < n) : l.length ≤ n := by
  have h1 : l.length = l.toFinset.card := (List.toFinset_card_of_nodup hnd).symm
  have h2 : l.toFinset ⊆ Finset.range n := by
    intro x hx
    rw [List.mem_toFinset] at hx
    exact Finset.mem_range.mpr (hb x hx)
  rw [h1]
  simpa using Finset.card_le_card h2

/-- Claim C8: whenever make_entity or make_inactive_entity is called
with the free pool empty while the maximum number of simultaneously
live entities (TWO_ENTITY_MAX) is already reached, the operation fails
fatally (the `Too many entities` assertion aborts, modelled as none)
rather than returning an entity id. -/
theorem claim_C8 (w : World) (h : Reachable w)
    (hpool : w.unused_entities = [])
    (hfull : TWO_ENTITY_MAX ≤ w.entities.length) :
    w.make_inactive_entity = none ∧ w.make_entity = none := by
  have hw := reachable_regInv w h
  have hle : w.entities.length ≤ w.alive_count :=
    length_le_of_nodup_bound _ _ hw.nodupE hw.boundE
  have hge : TWO_ENTITY_MAX ≤ w.alive_count := Nat.le_trans hfull hle
  have h1 : w.make_inactive_entity = none := by
    unfold World.make_inactive_entity
    rw [hpool]
    rw [show ([] : List Nat).getLast? = none from rfl]
    dsimp only
    rw [if_neg (by omega : ¬ w.alive_count < TWO_ENTITY_MAX)]
  refine ⟨h1, ?_⟩
  unfold World.make_entity
  rw [h1]
  rfl

theorem mkN_facts (n : Nat) (hn : n ≤ TWO_ENTITY_MAX - 2) :
    (mkN n).alive_count = n + 2
    ∧ (mkN n).unused_entities = []
    ∧ (mkN n).entities.length = n + 2
    ∧ Reachable (mkN n) := by
  have hM : TWO_ENTITY_MAX = 4096 := rfl
  induction n with
  | zero =>
    exact ⟨rfl, rfl, rfl, reachable_wAfter [WOp.make_inactive] (by decide)⟩
  | succ n ih =>
    obtain ⟨ha, hu, hl, hr⟩ := ih (by omega)
    have hlt : (mkN n).alive_count < TWO_ENTITY_MAX := by
      rw [ha]
      omega
    have hnz : ¬ (mkN n).alive_count = NullEntity := by
      have hN : NullEntity = 0 := rfl
      rw [ha, hN]
      omega
    have hm : (mkN n).make_inactive_entity = some ((mkN n).alive_count,
        { mkN n with
          entities := (mkN n).entities ++ [(mkN n).alive_count]
          alive_count := (mkN n).alive_count + 1 }) := by
      unfold World.make_inactive_entity
      rw [hu]
      rw [show ([] : List Nat).getLast? = none from rfl]
      dsimp only
      rw [if_pos hlt, if_neg hnz, hu]
    have hrun : runOp (mkN n) WOp.make_inactive = some
        { mkN n with
          entities := (mkN n).entities ++ [(mkN n).alive_count]
          alive_count := (mkN n).alive_count + 1 } := by
      unfold runOp
      rw [hm]
      rfl
    have hmk : mkN (n + 1) =
        { mkN n with
          entities := (mkN n).entities ++ [(mkN n).alive_count]
          alive_count := (mkN n).alive_count + 1 } := by
      show (runOp (mkN n) WOp.make_inactive).getD (mkN n) = _
      rw [hrun]
      rfl
    rw [hmk]
    refine ⟨?_, ?_, ?_, ?_⟩
    · dsimp only
      rw [ha]
    · exact hu
    · dsimp only
      rw [List.length_append, hl]
      rfl
    · exact Relation.ReflTransGen.tail hr (step_of_runOp _ _ _ hrun)

/-- Witness for claim C8 at a concrete input: after filling the World
with TWO_ENTITY_MAX live entities (NullEntity plus 4095 created ones,
free pool empty), both creation operations abort. -/
theorem claim_C8_witness :
    (mkN (TWO_ENTITY_MAX - 2)).make_inactive_entity = none
    ∧ (mkN (TWO_ENTITY_MAX - 2)).make_entity = none := by
  obtain ⟨ha, hu, hl, hr⟩ := mkN_facts (TWO_ENTITY_MAX - 2) (Nat.le_refl _)
  have hM : TWO_ENTITY_MAX = 4096 := rfl
  exact claim_C8 _ hr hu (by rw [hl]; omega)

theorem invalidate_nodup (c : EntityCache) (d : Diff) (h : c.diffs.Nodup) :
    (invalidate_cache c d).diffs.Nodup := by
  unfold invalidate_cache
  split
  · exact h
  · exact nodup_concat _ _ h (by assumption)

theorem pack_view_cache_mem (w : World) (e t v : Nat) (ht : t ∈ w.entity_masks e) :
    (w.pack e t v).view_cache = w.view_cache := by
  simp only [World.pack]
  rw [if_pos ht]

theorem pack_view_cache_not_mem (w : World) (e t v : Nat)
    (ht : t ∉ w.entity_masks e) :
    (w.pack e t v).view_cache = w.view_cache.map (fun p =>
      if p.1 ⊆ insert t (w.entity_masks e) ∧ e ∉ p.2.lookup then
        (p.1, invalidate_cache p.2 { entity := e, op := .Add })
      else p) := by
  simp only [World.pack]
  rw [if_neg ht]

theorem pack_masks (w : World) (e t v : Nat) :
    (w.pack e t v).entity_masks
      = fun x => if x = e then insert t (w.entity_masks e) else w.entity_masks x := by
  simp only [World.pack]
  split <;> rfl

theorem remove_view_cache (w : World) (e t : Nat) :
    (w.remove_component e t).view_cache = w.view_cache.map (fun p =>
      if t ∈ p.1 ∧ e ∈ p.2.lookup then
        (p.1, invalidate_cache p.2 { entity := e, op := .Remove })
      else p) := rfl

theorem remove_masks (w : World) (e t : Nat) :
    (w.remove_component e t).entity_masks
      = fun x => if x = e then (w.entity_masks e).erase t else w.entity_masks x := rfl

theorem copy_view_cache (w : World) (dst src : Nat) :
    (w.copy_entity dst src).view_cache = w.view_cache.map (fun p =>
      if p.1 ⊆ w.entity_masks dst ∪ w.entity_masks src ∧ dst ∉ p.2.lookup then
        (p.1, invalidate_cache p.2 { entity := dst, op := .Add })
      else p) := rfl

/-- Claim C5 (amended): pack, remove_component and copy_entity append
diffs only through invalidate_cache, which scans the pending queue for
an identical (entity, operation) pair and skips the append if one is
present; consequently none of these operations ever introduces a
duplicate entry into any cache's pending diff queue.  (destroy_entity
appends directly and is exempt — see the counterexample.) -/
theorem claim_C5 (w : World) (e t v e2 t2 dst src : Nat) (h : DedupedDiffs w) :
    DedupedDiffs (w.pack e t v)
    ∧ DedupedDiffs (w.remove_component e2 t2)
    ∧ DedupedDiffs (w.copy_entity dst src) := by
  refine ⟨?_, ?_, ?_⟩
  · intro q hq
    by_cases ht : t ∈ w.entity_masks e
    · rw [pack_view_cache_mem w e t v ht] at hq
      exact h q hq
    · rw [pack_view_cache_not_mem w e t v ht] at hq
      obtain ⟨p, hp, rfl⟩ := List.mem_map.mp hq
      split
      · exact invalidate_nodup _ _ (h p hp)
      · exact h p hp
  · intro q hq
    rw [remove_view_cache] at hq
    obtain ⟨p, hp, rfl⟩ := List.mem_map.mp hq
    split
    · exact invalidate_nodup _ _ (h p hp)
    · exact h p hp
  · intro q hq
    rw [copy_view_cache] at hq
    obtain ⟨p, hp, rfl⟩ := List.mem_map.mp hq
    split
    · exact invalidate_nodup _ _ (h p hp)
    · exact h p hp

/-- Witness for the amended claim C5 at a concrete input. -/
theorem claim_C5_witness :
    DedupedDiffs (C5w.pack 1 1 7)
    ∧ DedupedDiffs (C5w.remove_component 1 0)
    ∧ DedupedDiffs (C5w.copy_entity 1 1) :=
  claim_C5 C5w 1 1 7 1 0 1 1 (by decide)

theorem findCache_map_entry (vc : List (EntityMask × EntityCache))
    (m : EntityMask) (c : EntityCache)
    (f : EntityMask × EntityCache → EntityMask × EntityCache)
    (hf : ∀ p, (f p).1 = p.1) (h : findCache vc m = some c) :
    findCache (vc.map f) m = some (f (m, c)).2 := by
  unfold findCache at h ⊢
  obtain ⟨p0, hp0, hp02⟩ := Option.map_eq_some'.mp h
  have hkey0 := List.find?_some hp0
  simp only [decide_eq_true_eq] at hkey0
  have hkey : p0.1 = m := hkey0
  rw [List.find?_map]
  have hpred : ((fun p => decide (p.1 = m)) ∘ f)
      = (fun p : EntityMask × EntityCache => decide (p.1 = m)) := by
    funext p
    simp [Function.comp, hf p]
  rw [hpred, hp0]
  have hp : p0 = (m, c) := Prod.ext hkey hp02
  rw [hp]
  rfl

/-- Claim C6 (amended): if an entity e is tracked by an existing cache
for mask m but is not in its lookup set, the queue holds no diff for e,
and m is a subset of e's mask with bit t set, then the
pack → remove_component → pack toggle on (e, t) before the cache is
next viewed queues exactly one diff: the single Add appended to the
previous queue (not three diffs). -/
theorem claim_C6 (w : World) (m : EntityMask) (c : EntityCache) (e t v v2 : Nat)
    (hc : findCache w.view_cache m = some c)
    (hl : e ∉ c.lookup)
    (hd : ∀ d, d ∈ c.diffs → d.entity ≠ e)
    (hm : m ⊆ insert t (w.entity_masks e)) :
    cacheDiffs (((w.pack e t v).remove_component e t).pack e t v2) m
      = some (c.diffs ++ [{ entity := e, op := DiffOp.Add }]) := by
  have hDnm : ({ entity := e, op := DiffOp.Add } : Diff) ∉ c.diffs :=
    fun hmem => (hd _ hmem) rfl
  have hmask2 : ((w.pack e t v).remove_component e t).entity_masks e
      = (insert t (w.entity_masks e)).erase t := by
    rw [remove_masks]
    dsimp only
    rw [if_pos rfl, pack_masks]
    dsimp only
    rw [if_pos rfl]
  have ht3 : t ∉ ((w.pack e t v).remove_component e t).entity_masks e := by
    rw [hmask2]
    exact Finset.not_mem_erase t _
  have hm3 : m ⊆ insert t (((w.pack e t v).remove_component e t).entity_masks e) := by
    rw [hmask2]
    intro x hx
    have hx2 := hm hx
    simp only [Finset.mem_insert, Finset.mem_erase] at hx2 ⊢
    by_cases hxt : x = t
    · exact Or.inl hxt
    · exact Or.inr ⟨hxt, hx2⟩
  by_cases ht : t ∈ w.entity_masks e
  · have h1 : findCache (w.pack e t v).view_cache m = some c := by
      rw [pack_view_cache_mem w e t v ht]
      exact hc
    have h2 : findCache ((w.pack e t v).remove_component e t).view_cache m
        = some c := by
      rw [remove_view_cache,
        findCache_map_entry _ _ _ _ (fun p => by split <;> rfl) h1]
      dsimp only
      rw [if_neg (fun hand => hl hand.2)]
    have h3 : findCache (((w.pack e t v).remove_component e t).pack e t v2).view_cache m
        = some (invalidate_cache c { entity := e, op := .Add }) := by
      rw [pack_view_cache_not_mem _ _ _ _ ht3,
        findCache_map_entry _ _ _ _ (fun p => by split <;> rfl) h2]
      dsimp only
      rw [if_pos ⟨hm3, hl⟩]
    unfold cacheDiffs
    rw [h3]
    unfold invalidate_cache
    rw [if_neg hDnm]
    rfl
  · have h1 : findCache (w.pack e t v).view_cache m
        = some { c with diffs := c.diffs ++ [{ entity := e, op := .Add }] } := by
      rw [pack_view_cache_not_mem w e t v ht,
        findCache_map_entry _ _ _ _ (fun p => by split <;> rfl) hc]
      dsimp only
      rw [if_pos ⟨hm, hl⟩]
      unfold invalidate_cache
      rw [if_neg hDnm]
    have h2 : findCache ((w.pack e t v).remove_component e t).view_cache m
        = some { c with diffs := c.diffs ++ [{ entity := e, op := .Add }] } := by
      rw [remove_view_cache,
        findCache_map_entry _ _ _ _ (fun p => by split <;> rfl) h1]
      dsimp only
      rw [if_neg (fun hand => hl hand.2)]
    have h3 : findCache (((w.pack e t v).remove_component e t).pack e t v2).view_cache m
        = some (invalidate_cache
            { c with diffs := c.diffs ++ [{ entity := e, op := .Add }] }
            { entity := e, op := .Add }) := by
      rw [pack_view_cache_not_mem _ _ _ _ ht3,
        findCache_map_entry _ _ _ _ (fun p => by split <;> rfl) h2]
      dsimp only
      rw [if_pos ⟨hm3, hl⟩]
    unfold cacheDiffs
    rw [h3]
    unfold invalidate_cache
    rw [if_pos (List.mem_append.mpr (Or.inr (List.mem_singleton_self _)))]
    rfl

/-- Witness for the amended claim C6 at a concrete input: the toggle on
entity 1 and component 1 leaves exactly one queued Add diff. -/
theorem claim_C6_witness :
    cacheDiffs (((C6w.pack 1 1 7).remove_component 1 1).pack 1 1 8) {ActiveId, 1}
      = some [{ entity := 1, op := DiffOp.Add }] :=
  claim_C6 C6w {ActiveId, 1} { entities := [], diffs := [], lookup := ∅ } 1 1 7 8
    (by decide) (by decide) (by decide) (by decide)

theorem nstep_step (w w2 : World) (h : NStep w w2) : Step w w2 := by
  cases h with
  | make_inactive e w2 hm => exact Step.make_inactive w e w2 hm
  | make e w2 hm => exact Step.make w e w2 hm
  | pack e t v he he0 => exact Step.pack w e t v he
  | remove_component e t he => exact Step.remove_component w e t he
  | copy dst src hd hs hd0 => exact Step.copy w dst src hd hs
  | destroy e he0 he => exact Step.destroy w e he0 he
  | view ts ia res w2 hv => exact Step.view w ts ia res w2 hv
  | collect w2 hc => exact Step.collect w w2 hc

theorem nreachable_reachable (w : World) (h : NReachable w) : Reachable w :=
  Relation.ReflTransGen.mono nstep_step h

theorem nullClean_init : NullClean World.init := by
  refine ⟨rfl, fun t => rfl, fun t p h => Option.noConfusion h, fun t => storeInv_empty⟩

theorem write_preserves_null {T : Type} (s : ComponentArray T) (e : Nat) (c : T)
    (he : e ≠ NullEntity) (h0 : s.entity_to_packed NullEntity = none)
    (hp : ∀ p, s.packed_to_entity p ≠ some NullEntity) :
    (s.write e c).entity_to_packed NullEntity = none
    ∧ ∀ p, (s.write e c).packed_to_entity p ≠ some NullEntity := by
  cases heq : s.entity_to_packed e with
  | some pos =>
    rw [write_eq_replace s e c pos heq]
    exact ⟨h0, hp⟩
  | none =>
    rw [write_eq_append s e c heq]
    constructor
    · dsimp only
      rw [if_neg (fun hc => he hc.symm)]
      exact h0
    · intro p
      dsimp only
      split
      · intro hc
        injection hc with hc
        exact he hc
      · exact hp p

theorem remove_preserves_null {T : Type} [Inhabited T] (s : ComponentArray T)
    (e : Nat) (hinv : StoreInv s) (h0 : s.entity_to_packed NullEntity = none)
    (hp : ∀ p, s.packed_to_entity p ≠ some NullEntity) :
    (s.remove e).entity_to_packed NullEntity = none
    ∧ ∀ p, (s.remove e).packed_to_entity p ≠ some NullEntity := by
  cases heq : s.entity_to_packed e with
  | none =>
    rw [remove_eq_noop s e heq]
    exact ⟨h0, hp⟩
  | some removed =>
    have he : e ≠ NullEntity := by
      intro hc
      rw [hc, h0] at heq
      exact Option.noConfusion heq
    have hrem : removed < s.packed_count := (hinv.left e removed heq).1
    have hlast : s.packed_count - 1 < s.packed_count := by omega
    obtain ⟨mv, hmv⟩ := Option.isSome_iff_exists.mp (hinv.full _ hlast)
    have hmv0 : mv ≠ NullEntity := by
      intro hc
      exact hp _ (hc ▸ hmv)
    have hmoved : (s.packed_to_entity (s.packed_count - 1)).getD 0 = mv := by
      rw [hmv]
      rfl
    rw [remove_eq_swap s e removed heq]
    constructor
    · dsimp only
      rw [hmoved, if_neg (fun hc => he hc.symm), if_neg (fun hc => hmv0 hc.symm)]
      exact h0
    · intro p
      dsimp only
      rw [hmoved]
      split
      · exact fun hc => Option.noConfusion hc
      · split
        · intro hc
          injection hc with hc
          exact hmv0 hc
        · exact hp p

theorem nullClean_congr (w w2 : World) (hC : w2.components = w.components)
    (hM : w2.entity_masks = w.entity_masks) (h : NullClean w) : NullClean w2 :=
  ⟨by rw [hM]; exact h.mask0, by rw [hC]; exact h.etp0,
   by rw [hC]; exact h.pte0, by rw [hC]; exact h.sinv⟩

theorem nullClean_pack (w : World) (e t v : Nat) (he0 : e ≠ NullEntity)
    (h : NullClean w) : NullClean (w.pack e t v) := by
  have hmask : (w.pack e t v).entity_masks NullEntity = ∅ := by
    rw [pack_masks]
    dsimp only
    rw [if_neg (fun hc => he0 hc.symm)]
    exact h.mask0
  have hcomps : (w.pack e t v).components
      = fun u => if u = t then (w.components t).write e v else w.components u := by
    simp only [World.pack]
    split <;> rfl
  refine ⟨hmask, ?_, ?_, ?_⟩
  · intro u
    rw [hcomps]
    dsimp only
    split
    · exact (write_preserves_null _ e v he0 (h.etp0 t) (h.pte0 t)).1
    · exact h.etp0 u
  · intro u p
    rw [hcomps]
    dsimp only
    split
    · exact (write_preserves_null _ e v he0 (h.etp0 t) (h.pte0 t)).2 p
    · exact h.pte0 u p
  · intro u
    rw [hcomps]
    dsimp only
    split
    · exact storeInv_write _ e v (h.sinv t)
    · exact h.sinv u

theorem nullClean_remove (w : World) (e t : Nat) (h : NullClean w) :
    NullClean (w.remove_component e t) := by
  have hmask : (w.remove_component e t).entity_masks NullEntity = ∅ := by
    rw [remove_masks]
    dsimp only
    split
    · rename_i hz
      rw [← hz, h.mask0]
      exact Finset.erase_empty t
    · exact h.mask0
  refine ⟨hmask, ?_, ?_, ?_⟩
  · intro u
    dsimp only [World.remove_component]
    split
    · exact (remove_preserves_null _ e (h.sinv t) (h.etp0 t) (h.pte0 t)).1
    · exact h.etp0 u
  · intro u p
    dsimp only [World.remove_component]
    split
    · exact (remove_preserves_null _ e (h.sinv t) (h.etp0 t) (h.pte0 t)).2 p
    · exact h.pte0 u p
  · intro u
    dsimp only [World.remove_component]
    split
    · exact storeInv_remove _ e (h.sinv t)
    · exact h.sinv u

theorem nullClean_copy (w : World) (dst src : Nat) (hd0 : dst ≠ NullEntity)
    (h : NullClean w) : NullClean (w.copy_entity dst src) := by
  refine ⟨?_, ?_, ?_, ?_⟩
  · dsimp only [World.copy_entity]
    rw [if_neg (fun hc => hd0 hc.symm)]
    exact h.mask0
  · intro u
    dsimp only [World.copy_entity]
    split
    · exact (write_preserves_null _ dst _ hd0 (h.etp0 u) (h.pte0 u)).1
    · exact h.etp0 u
  · intro u p
    dsimp only [World.copy_entity]
    split
    · exact (write_preserves_null _ dst _ hd0 (h.etp0 u) (h.pte0 u)).2 p
    · exact h.pte0 u p
  · intro u
    dsimp only [World.copy_entity]
    split
    · exact storeInv_write _ dst _ (h.sinv u)
    · exact h.sinv u

theorem nullClean_destroy (w : World) (e : Nat) (h : NullClean w) :
    NullClean (w.destroy_entity e) := by
  refine ⟨?_, ?_, ?_, ?_⟩
  · dsimp only [World.destroy_entity]
    split
    · rfl
    · exact h.mask0
  · intro u
    exact (remove_preserves_null _ e (h.sinv u) (h.etp0 u) (h.pte0 u)).1
  · intro u p
    exact (remove_preserves_null _ e (h.sinv u) (h.etp0 u) (h.pte0 u)).2 p
  · intro u
    exact storeInv_remove _ e (h.sinv u)

theorem make_inactive_cm (w : World) (e : Nat) (w2 : World)
    (h : w.make_inactive_entity = some (e, w2)) :
    w2.components = w.components ∧ w2.entity_masks = w.entity_masks := by
  rcases make_inactive_cases w e w2 h with ⟨_, hw2⟩ | ⟨_, _, _, hw2⟩ | ⟨_, _, _, _, hw2⟩
    <;> (subst hw2; exact ⟨rfl, rfl⟩)

theorem view_cm (w : World) (ts : Finset Nat) (ia : Bool) (res : List Nat)
    (w2 : World) (h : w.view ts ia = some (res, w2)) :
    w2.components = w.components ∧ w2.entity_masks = w.entity_masks := by
  unfold World.view at h
  cases hfc : findCache w.view_cache (if ia then ts else insert ActiveId ts) with
  | some c =>
    simp only [hfc] at h
    split at h
    · injection h with h
      injection h with h1 h2
      rw [← h2]
      exact ⟨rfl, rfl⟩
    · obtain ⟨c2, hc2, hw2⟩ := Option.map_eq_some'.mp h
      injection hw2 with h1 h2
      rw [← h2]
      exact ⟨rfl, rfl⟩
  | none =>
    simp only [hfc] at h
    injection h with h
    injection h with h1 h2
    rw [← h2]
    exact ⟨rfl, rfl⟩

theorem collect_cm (w w2 : World) (h : w.collect_unused_entities = some w2) :
    w2.components = w.components ∧ w2.entity_masks = w.entity_masks := by
  unfold World.collect_unused_entities at h
  obtain ⟨r, hr, hw2⟩ := Option.map_eq_some'.mp h
  rw [← hw2]
  exact ⟨rfl, rfl⟩

theorem make_inactive_ne_zero (w : World) (e : Nat) (w2 : World)
    (h : w.make_inactive_entity = some (e, w2)) (hw : RegInv w) :
    e ≠ NullEntity := by
  rcases make_inactive_cases w e w2 h with ⟨hlast, _⟩ | ⟨_, _, he1, _⟩
    | ⟨_, hapos, _, he, _⟩
  · intro hc
    apply hw.zeroU
    rw [← hc]
    rw [← List.dropLast_append_getLast? e hlast]
    exact List.mem_append.mpr (Or.inr (List.mem_singleton_self e))
  · rw [he1]
    intro hc
    exact Nat.noConfusion hc
  · rw [he]
    intro hc
    rw [hc] at hapos
    exact Nat.lt_irrefl _ hapos

theorem nullClean_nstep (w w2 : World) (h : NStep w w2) (hreg : RegInv w)
    (hn : NullClean w) : NullClean w2 := by
  cases h with
  | make_inactive e w2 hm =>
    obtain ⟨hC, hM⟩ := make_inactive_cm w e w2 hm
    exact nullClean_congr w w2 hC hM hn
  | make e w2 hm =>
    unfold World.make_entity at hm
    obtain ⟨r, hr, heq⟩ := Option.map_eq_some'.mp hm
    injection heq with h1 h2
    obtain ⟨hC, hM⟩ := make_inactive_cm w r.1 r.2 (by rw [hr])
    have he0 : r.1 ≠ NullEntity := make_inactive_ne_zero w r.1 r.2 (by rw [hr]) hreg
    have hn2 : NullClean r.2 := nullClean_congr w r.2 hC hM hn
    rw [← h2]
    exact nullClean_pack r.2 r.1 ActiveId 0 he0 hn2
  | pack e t v he he0 => exact nullClean_pack w e t v he0 hn
  | remove_component e t he => exact nullClean_remove w e t hn
  | copy dst src hd hs hd0 => exact nullClean_copy w dst src hd0 hn
  | destroy e he0 he => exact nullClean_destroy w e hn
  | view ts ia res w2 hv =>
    obtain ⟨hC, hM⟩ := view_cm w ts ia res w2 hv
    exact nullClean_congr w w2 hC hM hn
  | collect w2 hc =>
    obtain ⟨hC, hM⟩ := collect_cm w w2 hc
    exact nullClean_congr w w2 hC hM hn

theorem nreachable_nullClean (w : World) (h : NReachable w) : NullClean w := by
  induction h with
  | refl => exact nullClean_init
  | tail hab hbc ih =>
    exact nullClean_nstep _ _ hbc
      (reachable_regInv _ (nreachable_reachable _ hab)) ih

/-- Claim C9 (amended): entity 0 (NullEntity) is permanently reserved:
at every reachable state it is in the world from the first entity
creation onward (alive_count positive) and it is never the id returned
by make_entity or make_inactive_entity; and along every trace in which
no pack or copy_entity ever targets entity 0 directly — the code itself
does not prevent that — entity 0 holds no component of any type. -/
theorem claim_C9 :
    (∀ w, Reachable w →
      (0 < w.alive_count → NullEntity ∈ w.entities)
      ∧ (∀ e w2, w.make_inactive_entity = some (e, w2) → e ≠ NullEntity)
      ∧ (∀ e w2, w.make_entity = some (e, w2) → e ≠ NullEntity))
    ∧ (∀ w, NReachable w →
      w.entity_masks NullEntity = ∅
      ∧ ∀ t, (w.components t).contains NullEntity = false) := by
  constructor
  · intro w hw
    have hreg := reachable_regInv w hw
    refine ⟨hreg.zeroE, fun e w2 hm => make_inactive_ne_zero w e w2 hm hreg, ?_⟩
    intro e w2 hm
    unfold World.make_entity at hm
    obtain ⟨r, hr, heq⟩ := Option.map_eq_some'.mp hm
    injection heq with h1 h2
    rw [← h1]
    exact make_inactive_ne_zero w r.1 r.2 (by rw [hr]) hreg
  · intro w hw
    have hn := nreachable_nullClean w hw
    refine ⟨hn.mask0, ?_⟩
    intro t
    unfold ComponentArray.contains
    rw [hn.etp0 t]
    rfl

/-- Witness for the amended claim C9 at a concrete input: the state
after one make_entity call. -/
theorem claim_C9_witness :
    ((0 < (wAfter [WOp.make]).alive_count → NullEntity ∈ (wAfter [WOp.make]).entities)
      ∧ (∀ e w2, (wAfter [WOp.make]).make_inactive_entity = some (e, w2) →
          e ≠ NullEntity)
      ∧ (∀ e w2, (wAfter [WOp.make]).make_entity = some (e, w2) → e ≠ NullEntity))
    ∧ ((wAfter [WOp.make]).entity_masks NullEntity = ∅
      ∧ ∀ t, ((wAfter [WOp.make]).components t).contains NullEntity = false) := by
  have hn : NReachable (wAfter [WOp.make]) :=
    Relation.ReflTransGen.tail Relation.ReflTransGen.refl
      (NStep.make World.init 1 (wAfter [WOp.make]) rfl)
  exact ⟨claim_C9.1 (wAfter [WOp.make]) (reachable_wAfter [WOp.make] (by decide)),
    claim_C9.2 (wAfter [WOp.make]) hn⟩

/-- Claim C7 is refuted by the code.  With two systems (system 10 of
type 0, then system 11 of type 1), adding system 99 of type 2 before
the existing type 0 inserts it at index distance(pos, end) - 1 = 1, so
the list becomes [10, 99, 11]: the new system sits behind the Before
system (index 0), not immediately ahead of it — and the type vector
becomes [2, 0, 1], breaking the index correspondence between the two
parallel vectors.  And when no system of the Before type exists, the
new system is not appended at all: the list is returned unchanged. -/
theorem pack_mem_eq (w : World) (e t v : Nat) (hm : t ∈ w.entity_masks e) :
    w.pack e t v =
      { w with
        entity_masks := fun x =>
          if x = e then insert t (w.entity_masks e) else w.entity_masks x
        components := fun u =>
          if u = t then (w.components t).write e v else w.components u } := by
  simp only [World.pack]
  rw [if_pos hm]

theorem viewList_congr (w w2 : World) (hvc : w2.view_cache = w.view_cache)
    (hent : w2.entities = w.entities)
    (hmask : ∀ x, w2.entity_masks x = w.entity_masks x) (ts : Finset Nat)
    (ia : Bool) : viewList w2 ts ia = viewList w ts ia := by
  cases hfc : findCache w.view_cache (if ia then ts else insert ActiveId ts) with
  | some c =>
    simp only [viewList, World.view, hvc, hent, hfc]
    split
    · rfl
    · cases apply_diffs_to_cache c <;> rfl
  | none =>
    simp only [viewList, World.view, hvc, hent, hfc]
    rw [List.filter_congr (fun x _ => by rw [hmask x])]
    rfl

/-- Claim C4: if entity e already holds a component of type t (its mask
bit is set and the store for t contains it), then pack(e, t, v)
overwrites the stored value in place and has no effect on any query
cache: the cache table (hence every pending diff queue) is untouched,
the masks, live list, registry state and all other stores are
unchanged, the store for t keeps the same entity↔slot maps and count
with only the stored value for e changed, and every subsequent view
returns the same list as it would have without the pack. -/
theorem claim_C4 (w : World) (e t v : Nat)
    (hmask : t ∈ w.entity_masks e)
    (hstore : (w.components t).contains e = true)
    (hinv : StoreInv (w.components t)) :
    (w.pack e t v).view_cache = w.view_cache
    ∧ (∀ x, (w.pack e t v).entity_masks x = w.entity_masks x)
    ∧ (w.pack e t v).entities = w.entities
    ∧ (w.pack e t v).alive_count = w.alive_count
    ∧ (w.pack e t v).unused_entities = w.unused_entities
    ∧ (w.pack e t v).destroyed_entities = w.destroyed_entities
    ∧ (∀ u, u ≠ t → (w.pack e t v).components u = w.components u)
    ∧ ((w.pack e t v).components t).entity_to_packed
      = (w.components t).entity_to_packed
    ∧ ((w.pack e t v).components t).packed_count
      = (w.components t).packed_count
    ∧ ((w.pack e t v).components t).read e = v
    ∧ (∀ ts ia, viewList (w.pack e t v) ts ia = viewList w ts ia) := by
  obtain ⟨pos, hpos⟩ := Option.isSome_iff_exists.mp hstore
  have hmasks : ∀ x, (w.pack e t v).entity_masks x = w.entity_masks x := by
    intro x
    rw [pack_mem_eq w e t v hmask]
    dsimp only
    by_cases hx : x = e
    · rw [if_pos hx, hx, Finset.insert_eq_self.mpr hmask]
    · rw [if_neg hx]
  have hwrite : (w.pack e t v).components t
      = { w.components t with
          packed_array := (w.components t).packed_array.set pos v } := by
    rw [pack_mem_eq w e t v hmask]
    dsimp only
    rw [if_pos rfl, write_eq_replace (w.components t) e v pos hpos]
  refine ⟨by rw [pack_mem_eq w e t v hmask], hmasks,
    by rw [pack_mem_eq w e t v hmask], by rw [pack_mem_eq w e t v hmask],
    by rw [pack_mem_eq w e t v hmask], by rw [pack_mem_eq w e t v hmask],
    ?_, ?_, ?_, ?_, ?_⟩
  · intro u hu
    rw [pack_mem_eq w e t v hmask]
    dsimp only
    rw [if_neg hu]
  · rw [hwrite]
  · rw [hwrite]
  · rw [hwrite]
    unfold ComponentArray.read
    dsimp only
    rw [hpos]
    have hlt : pos < (w.components t).packed_array.length :=
      Nat.lt_of_lt_of_le (hinv.left e pos hpos).1 hinv.len
    simp [List.getD_eq_getElem?_getD, List.getElem?_set_self, hlt]
  · intro ts ia
    exact viewList_congr w (w.pack e t v) (by rw [pack_mem_eq w e t v hmask])
      (by rw [pack_mem_eq w e t v hmask]) hmasks ts ia

/-- Witness for claim C4 at a concrete input: entity 1 already holds
component 1 with value 7; re-packing value 9 leaves the cache table and
the view result unchanged and overwrites the stored value. -/
theorem claim_C4_witness :
    (C4w.pack 1 1 9).view_cache = C4w.view_cache
    ∧ viewList (C4w.pack 1 1 9) {1} false = viewList C4w {1} false
    ∧ ((C4w.pack 1 1 9).components 1).read 1 = 9 := by
  obtain ⟨h1, h2, h3, h4, h5, h6, h7, h8, h9, h10, h11⟩ :=
    claim_C4 C4w 1 1 9 (by decide) (by decide)
      (storeInv_write ({} : ComponentArray Nat) 1 7 storeInv_empty)
  exact ⟨h1, h11 {1} false, h10⟩

theorem claim_C7 :
    (make_system_before { active_systems := [10, 11], active_system_types := [0, 1] }
      0 99 2).active_systems = [10, 99, 11]
    ∧ (make_system_before { active_systems := [10, 11], active_system_types := [0, 1] }
      0 99 2).active_system_types = [2, 0, 1]
    ∧ make_system_before { active_systems := [10], active_system_types := [0] }
      5 99 2 = { active_systems := [10], active_system_types := [0] } := by
  refine ⟨by decide, by decide, by decide⟩

end Two
